import Mathlib

/-!
Verification of the `obscure-string` masking engine (`src/index.js`).

A JavaScript string is modelled as a list of characters (`JStr`); `.length`,
`.slice`, `.repeat` and friends are embedded as the corresponding list
operations, including JavaScript quirks such as `slice(-0) = slice(0)`
returning the whole string.  JavaScript numbers appearing in the percentage
computation are modelled as rationals together with an explicit IEEE-754
binary64 round-to-nearest-even function (`fl53`), valid on the positive
normal range, which is the only range the library's arithmetic touches.
The module-level memoization cache is threaded through explicitly as an
association list in insertion order, and the two sources of ambient
non-determinism (the random mask character generator and the regular
expression engine used by `preservePattern`) are injected as parameters.
-/

/-- A JavaScript string: a sequence of (UTF-16) characters. -/
abbrev JStr := List Char

deriving instance DecidableEq for Except

/-- Models `str.slice(0, n)` for a non-negative integer `n`. -/
def jsTake (s : JStr) (n : ℕ) : JStr := s.take n

/-- Models `str.slice(n)` for a non-negative integer `n`. -/
def jsDrop (s : JStr) (n : ℕ) : JStr := s.drop n

/-- Models `str.slice(-n)` for a non-negative integer `n`.  JavaScript's
`-0` equals `0`, so `slice(-0)` is `slice(0)`: the whole string.  For
`n > 0` the start index is `max(length - n, 0)`, which natural
subtraction provides. -/
def jsSliceNeg (s : JStr) (n : ℕ) : JStr :=
  if n = 0 then s else s.drop (s.length - n)

/-- Models `maskStr.repeat(n)`: `n` concatenated copies of `maskStr`. -/
def jsRepeat (m : JStr) (n : ℕ) : JStr := (List.replicate n m).flatten

/-- Fuel-driven binary logarithm: `natLog2Go fuel n` is the greatest `k`
with `2 ^ k ≤ n`, provided `1 ≤ n < 2 ^ fuel`. -/
def natLog2Go : ℕ → ℕ → ℕ
  | 0, _ => 0
  | fuel + 1, n => if n ≤ 1 then 0 else natLog2Go fuel (n / 2) + 1

/-- Greatest `k` with `2 ^ k ≤ n` (for `1 ≤ n`). -/
def natLog2 (n : ℕ) : ℕ := natLog2Go n n

/-- Fuel-driven ceiling binary logarithm: `natClog2Go fuel n` is the least
`k` with `n ≤ 2 ^ k`, provided `1 ≤ n ≤ 2 ^ fuel`. -/
def natClog2Go : ℕ → ℕ → ℕ
  | 0, _ => 0
  | fuel + 1, n => if n ≤ 1 then 0 else natClog2Go fuel ((n + 1) / 2) + 1

/-- Least `k` with `n ≤ 2 ^ k`. -/
def natClog2 (n : ℕ) : ℕ := natClog2Go n n

/-- The binary exponent of the positive fraction `a / b`: the greatest `e`
with `2 ^ e ≤ a / b`. -/
def ilogND (a b : ℕ) : ℤ :=
  if b ≤ a then (natLog2 (a / b) : ℤ) else -(natClog2 ((b + a - 1) / a) : ℤ)

/-- Round the non-negative fraction `a / b` to the nearest integer, ties
to even: the rounding used by IEEE-754 binary64 arithmetic. -/
def roundNE (a b : ℕ) : ℕ :=
  let f := a / b
  let r := a % b
  if 2 * r < b then f
  else if b < 2 * r then f + 1
  else if f % 2 = 0 then f else f + 1

/-- Round the non-negative fraction `a / b` to the nearest IEEE-754
binary64 value (round-to-nearest, ties-to-even), modelled for the normal
range as a mantissa/exponent pair `(m, e)` denoting `m * 2 ^ e`. -/
def fl53ND (a b : ℕ) : ℕ × ℤ :=
  if a = 0 then (0, 0)
  else
    let e : ℤ := ilogND a b - 52
    if 0 ≤ e then (roundNE a (b * 2 ^ e.toNat), e)
    else (roundNE (a * 2 ^ (-e).toNat) b, e)

/-- The rational value of a mantissa/exponent pair. -/
def dyVal (p : ℕ × ℤ) : ℚ := (p.1 : ℚ) * 2 ^ p.2

/-- Models `Math.floor(str.length * (percentage / 100))` as evaluated in
binary64 floating point: the division `percentage / 100` rounds once, the
multiplication by `str.length` (an exactly representable integer) rounds
once, and `Math.floor` of the resulting double is exact.  The percentage
is a rational (the exact value of the supplied double), and all rounding
is carried out on numerator/denominator pairs in integer arithmetic. -/
def jsMaskCount (len : ℕ) (q : ℚ) : ℕ :=
  let p1 := fl53ND q.num.toNat (q.den * 100)
  let a2b2 : ℕ × ℕ :=
    if 0 ≤ p1.2 then (len * p1.1 * 2 ^ p1.2.toNat, 1) else (len * p1.1, 2 ^ (-p1.2).toNat)
  let p2 := fl53ND a2b2.1 a2b2.2
  if 0 ≤ p2.2 then p2.1 * 2 ^ p2.2.toNat else p2.1 / 2 ^ (-p2.2).toNat

/-- The value supplied for `maskChar`: a string, or a value of any other
runtime type (which fails the `typeof` check). -/
inductive MCVal where
  | strV (v : JStr)
  | nonString
deriving DecidableEq

/-- The value supplied for `prefixLength` / `suffixLength`: an integer,
or any value for which `Number.isInteger` is `false` (non-numbers,
non-integral numbers, `NaN`). -/
inductive NumVal where
  | intV (n : ℤ)
  | nonInt
deriving DecidableEq

/-- The value supplied for `percentage`: a number (modelled as a
rational; `NaN` is outside the model and out of scope of the claims,
which quantify over `[0,100]`), or a non-number. -/
inductive PercVal where
  | numV (q : ℚ)
  | nonNum
deriving DecidableEq

/-- The value supplied for `preservePattern`: a string or a non-string. -/
inductive PPVal where
  | strV (v : JStr)
  | nonString
deriving DecidableEq

/-- The value supplied for `randomMask`: a boolean or a non-boolean. -/
inductive RMVal where
  | boolV (b : Bool)
  | nonBool
deriving DecidableEq

/-- The raw options bag passed to `obscureString`.  `none` models an
absent (`undefined`) field.  `cacheOn` models the truth value of
`options.cache !== false`.  `pattern` is modelled as an optional string
(the source only ever compares it against string literals). -/
structure Options where
  maskChar : Option MCVal := none
  prefixLength : Option NumVal := none
  suffixLength : Option NumVal := none
  percentage : Option PercVal := none
  preservePattern : Option PPVal := none
  randomMask : Option RMVal := none
  pattern : Option JStr := none
  cacheOn : Bool := true
deriving DecidableEq

/-- The sanitized options record produced by `validateInput`.  The
validated `prefixLength`/`suffixLength` are non-negative integers bounded
by the input length, so they are stored as naturals. -/
structure SanOptions where
  maskChar : JStr
  prefixLength : ℕ
  suffixLength : ℕ
  percentage : Option ℚ := none
  preservePattern : Option JStr := none
  randomMask : Option Bool := none
deriving DecidableEq

/-- The input value: a string, or a value of any other runtime type. -/
inductive JsVal where
  | str (s : JStr)
  | other
deriving DecidableEq

/-- The value taken by `options.maskChar ?? '*'` when the field is not a
non-string. -/
def mcValue (f : Option MCVal) : JStr :=
  match f with
  | some (.strV m) => m
  | _ => '*' :: []

/-- The value taken by `options.prefixLength ?? 3` (and suffix) when the
field is not a non-integer. -/
def numValue (f : Option NumVal) : ℤ :=
  match f with
  | some (.intV n) => n
  | _ => 3

/-- The sanitized `preservePattern` field. -/
def ppValue (f : Option PPVal) : Option JStr :=
  match f with
  | some (.strV t) => some t
  | _ => none

/-- The sanitized `randomMask` field. -/
def rmValue (f : Option RMVal) : Option Bool :=
  match f with
  | some (.boolV b) => some b
  | _ => none

/-- The `preservePattern` and `randomMask` checks at the tail of
`validateInput`, ending in the sanitized record. -/
def validateTail (o : Options) (maskChar : JStr) (p suf : ℤ)
    (perc : Option ℚ) : Except JStr SanOptions :=
  match o.preservePattern with
  | some .nonString => .error ("preservePattern must be a string").data
  | _ =>
    match o.randomMask with
    | some .nonBool => .error ("randomMask must be a boolean").data
    | _ =>
      .ok ⟨maskChar, p.toNat, suf.toNat, perc,
           ppValue o.preservePattern, rmValue o.randomMask⟩

/-- Embeds the string-input portion of `validateInput` (src/index.js
lines 29-115): each check is performed in source order and produces the
source's error string, or the sanitized options record. -/
def validateStr (s : JStr) (o : Options) : Except JStr SanOptions :=
  if 1000000 < s.length then
    .error ("Input exceeds maximum length of 1000000 characters").data
  else
    match o.maskChar with
    | some .nonString => .error ("maskChar must be a string").data
    | _ =>
      if (mcValue o.maskChar).length = 0 then
        .error ("maskChar cannot be empty").data
      else if 10 < (mcValue o.maskChar).length then
        .error ("maskChar exceeds maximum length of 10 characters").data
      else
        match o.prefixLength with
        | some .nonInt => .error ("prefixLength must be a non-negative integer").data
        | _ =>
          if numValue o.prefixLength < 0 then
            .error ("prefixLength must be a non-negative integer").data
          else if (s.length : ℤ) < numValue o.prefixLength then
            .error ("prefixLength exceeds string length").data
          else
            match o.suffixLength with
            | some .nonInt =>
                .error ("suffixLength must be a non-negative integer").data
            | _ =>
              if numValue o.suffixLength < 0 then
                .error ("suffixLength must be a non-negative integer").data
              else if (s.length : ℤ) < numValue o.suffixLength then
                .error ("suffixLength exceeds string length").data
              else if (s.length : ℤ) < numValue o.prefixLength + numValue o.suffixLength then
                .error ("prefixLength + suffixLength cannot exceed string length").data
              else
                match o.percentage with
                | some .nonNum =>
                    .error ("percentage must be a number between 0 and 100").data
                | some (.numV q) =>
                    if q < 0 ∨ 100 < q then
                      .error ("percentage must be a number between 0 and 100").data
                    else
                      validateTail o (mcValue o.maskChar) (numValue o.prefixLength)
                        (numValue o.suffixLength) (some q)
                | none =>
                    validateTail o (mcValue o.maskChar) (numValue o.prefixLength)
                      (numValue o.suffixLength) none

/-- Embeds `validateInput` for an arbitrary input value: the `typeof`
check, then the string-level checks of `validateStr`. -/
def validateInput (v : JsVal) (o : Options) : Except JStr SanOptions :=
  match v with
  | .other => .error ("Input must be a string").data
  | .str s => validateStr s o

/-- Fractional decimal digits of `r / d` for `r < d`, with fuel; used only
to stringify numbers for the cache key. -/
def fracDigits : ℕ → ℕ → ℕ → JStr
  | 0, _, _ => []
  | n + 1, r, d =>
    if r = 0 then []
    else
      let r10 := r * 10
      Char.ofNat (48 + r10 / d) :: fracDigits n (r10 % d) d

/-- Models `String(n)` for the non-negative numbers that can appear in a
sanitized options record: integers print without a decimal point, and the
finite binary fractions representable as doubles print their terminating
decimal expansion. -/
def ratToJStr (q : ℚ) : JStr :=
  if q.den = 1 then (toString q.num).data
  else (toString (q.num / (q.den : ℤ))).data ++ '.' :: fracDigits 64 (q.num.toNat % q.den) q.den

/-- The `${options.percentage || ''}` component of the cache key: the
empty string when the field is absent or `0`, the number's string
otherwise. -/
def percKeyPart (p : Option ℚ) : JStr :=
  match p with
  | none => []
  | some q => if q = 0 then [] else ratToJStr q

/-- The `${options.preservePattern || ''}` component of the cache key. -/
def ppKeyPart (p : Option JStr) : JStr := p.getD []

/-- Embeds `getCacheKey` (src/index.js lines 205-207): the template string
`len:maskChar:prefixLength:suffixLength:(percentage||''):(preservePattern||'')`
built from the input's length and the sanitized options — never from the
input's characters. -/
def getCacheKey (s : JStr) (so : SanOptions) : JStr :=
  (toString s.length).data ++ ':' :: so.maskChar
    ++ ':' :: (toString so.prefixLength).data
    ++ ':' :: (toString so.suffixLength).data
    ++ ':' :: percKeyPart so.percentage ++ ':' :: ppKeyPart so.preservePattern

/-- The memoization cache: key/value pairs in insertion order (head =
oldest), mirroring a JavaScript `Map`. -/
abbrev Cache := List (JStr × JStr)

/-- Embeds `getFromCache`: `cache.get(key) || null`, so an absent key and
a falsy (empty-string) value both read as a miss. -/
def getFromCache (key : JStr) (c : Cache) : Option JStr :=
  match c.find? (fun e => e.1 == key) with
  | none => none
  | some e => if e.2 = [] then none else some e.2

/-- Embeds `setInCache`: once 100 entries are reached the oldest-inserted
entry is evicted, then `Map.set` updates an existing key in place or
appends a new one. -/
def setInCache (key val : JStr) (c : Cache) : Cache :=
  let c1 := if 100 ≤ c.length then c.drop 1 else c
  if c1.any (fun e => e.1 == key) then
    c1.map (fun e => if e.1 == key then (key, val) else e)
  else c1 ++ [(key, val)]

/-- The fixed palette of `getRandomMaskChar` as written in the source
file's bytes (src/index.js line 123): the first two entries are the
single characters `*` and `#`, but the remaining six are multi-character
mojibake strings (UTF-8 bullet, times and square glyphs decoded as
cp1252) of lengths 3, 2, 3, 3, 3 and 3. -/
def maskPalette : List JStr :=
  [("*").data, ("#").data,
   ("\u201A\u00C4\u00A2").data, ("\u221A\u00F3").data,
   ("\u201A\u00F1\u2122").data, ("\u201A\u00F1\u00B4").data,
   ("\u201A\u00F1\u2020").data, ("\u201A\u00F1\u00B0").data]

/-- Embeds `getRandomMaskChar`: a uniformly drawn index into the fixed
palette, returning the drawn palette string (of length 1 to 3); the
random draw itself is injected as a `Fin 8`. -/
def getRandomMaskChar (r : Fin 8) : JStr := maskPalette.getD r.val (("*").data)

/-- Decides the email shape regex `^[^\s@]+@[^\s@]+\.[^\s@]+$`: no
whitespace, exactly one `@` preceded by at least one character, and after
the `@` a dot with at least one character on each side. -/
def emailShape (s : JStr) : Bool :=
  (s.countP (· == '@') == 1) &&
  s.all (fun c => !c.isWhitespace) &&
  (match s.findIdx? (· == '@') with
   | none => false
   | some i =>
     decide (1 ≤ i) &&
     (let b := s.drop (i + 1)
      (List.range b.length).any
        (fun j => b.getD j ' ' == '.' && decide (1 ≤ j) && decide (j + 2 ≤ b.length))))

/-- Decides the phone shape regex `^\+?[\d\s\-\(\)]+$`. -/
def phoneShape (s : JStr) : Bool :=
  let body := match s with
    | '+' :: rest => rest
    | _ => s
  !body.isEmpty &&
  body.all (fun c => c.isDigit || c.isWhitespace || c == '-' || c == '(' || c == ')')

/-- Embeds `detectPattern`. -/
def detectPattern (s : JStr) : JStr :=
  if emailShape s then ("email").data
  else if phoneShape s then ("phone").data
  else ("generic").data

/-- Embeds `maskEmail` (src/index.js lines 152-169). -/
def maskEmail (email : JStr) (so : SanOptions) : JStr :=
  match email.findIdx? (· == '@') with
  | none => email
  | some i =>
    if i = 0 then email
    else
      let localPart := email.take i
      let domain := email.drop i
      if localPart.length ≤ 2 then localPart ++ domain
      else
        localPart.take 1 ++ jsRepeat so.maskChar (localPart.length - 2)
          ++ jsSliceNeg localPart 1 ++ domain

/-- Embeds `maskPhone` (src/index.js lines 178-188): strip non-digits,
keep the last four digits. -/
def maskPhone (phone : JStr) (so : SanOptions) : JStr :=
  let digits := phone.filter Char.isDigit
  if digits.length < 4 then phone
  else jsRepeat so.maskChar (digits.length - 4) ++ jsSliceNeg digits 4

/-- Embeds `obscureCore` (src/index.js lines 241-266), including the two
size-dependent code paths of the source (both produce the concatenation of
the visible prefix, the repeated mask and the `slice(-suffixLength)` tail). -/
def obscureCore (s : JStr) (so : SanOptions) : JStr :=
  let p := so.prefixLength
  let suf := so.suffixLength
  let strLen := s.length
  if strLen ≤ p + suf then s
  else
    let maskLength := strLen - p - suf
    if strLen < 1000 then
      jsTake s p ++ jsRepeat so.maskChar maskLength ++ jsSliceNeg s suf
    else
      ([jsTake s p, jsRepeat so.maskChar maskLength, jsSliceNeg s suf]).flatten

/-- The percentage strategy (src/index.js lines 371-378): the mask count
is computed in binary64 arithmetic, the centering in exact small-integer
arithmetic. -/
def percentageMask (s : JStr) (q : ℚ) (so : SanOptions) : JStr :=
  let maskCount := jsMaskCount s.length q
  let startPos := (s.length - maskCount) / 2
  let endPos := startPos + maskCount
  jsTake s startPos ++ jsRepeat so.maskChar maskCount ++ jsDrop s endPos

/-- The random-mask strategy (src/index.js lines 381-391); `rng` injects
the successive random palette draws of the call, and the drawn palette
strings (not all of length 1) are joined to form the middle. -/
def randomMaskApply (s : JStr) (so : SanOptions) (rng : ℕ → Fin 8) : JStr :=
  let p := so.prefixLength
  let suf := so.suffixLength
  let maskLength := s.length - p - suf
  if maskLength = 0 then s
  else
    jsTake s p
      ++ ((List.range maskLength).map (fun i => getRandomMaskChar (rng i))).flatten
      ++ jsSliceNeg s suf

/-- The preserve-pattern strategy (src/index.js lines 393-409): each
middle character either kept (when the injected regex test `rt` accepts
it) or replaced by one whole copy of `maskChar`.  `rt` models the
per-character `char.match(new RegExp(preservePattern))` test for a
pattern on which `RegExp` construction succeeds; a syntactically invalid
pattern (which validation admits, checking only that it is a string)
instead makes the source throw a raw `SyntaxError` from `new RegExp` at
strategy time — a non-validation error path this total oracle does not
represent, and which no theorem below quantifies over. -/
def preserveApply (s : JStr) (so : SanOptions) (rt : JStr → Char → Bool) : JStr :=
  let p := so.prefixLength
  let suf := so.suffixLength
  let pp := so.preservePattern.getD []
  jsTake s p
    ++ (((s.take (s.length - suf)).drop p).map
          (fun ch => if rt pp ch then [ch] else so.maskChar)).flatten
    ++ jsSliceNeg s suf

/-- Truthiness of `options.pattern` (a non-empty string). -/
def patTruthy (o : Options) : Bool := !(o.pattern.getD []).isEmpty

/-- Truthiness of `options.preservePattern` after validation (present and
a non-empty string). -/
def ppTruthy (o : Options) : Bool :=
  match o.preservePattern with
  | some (.strV t) => !t.isEmpty
  | _ => false

/-- The strategy dispatch of `obscureString` (src/index.js lines 356-414):
pattern, then percentage, then randomMask, then preservePattern, then the
standard core. -/
def obscureCompute (s : JStr) (o : Options) (so : SanOptions)
    (rng : ℕ → Fin 8) (rt : JStr → Char → Bool) : JStr :=
  if patTruthy o then
    let pat := if o.pattern.getD [] = ("auto").data then detectPattern s
               else o.pattern.getD []
    if pat = ("email").data then maskEmail s so
    else if pat = ("phone").data then maskPhone s so
    else obscureCore s so
  else if o.percentage.isSome then
    let q := match o.percentage with
      | some (.numV q) => q
      | _ => 0
    percentageMask s q so
  else if o.randomMask = some (.boolV true) then
    randomMaskApply s so rng
  else if ppTruthy o then
    preserveApply s so rt
  else obscureCore s so

/-- Embeds the string-input path of `obscureString` (src/index.js lines
328-423): empty-string fast path, validation, cache lookup, strategy
dispatch, cache store.  The cache is threaded explicitly; errors carry the
message raised by `throw new Error`. -/
def obscureStr (s : JStr) (o : Options) (c : Cache)
    (rng : ℕ → Fin 8) (rt : JStr → Char → Bool) : Except JStr (JStr × Cache) :=
  if s.length = 0 then .ok ([], c)
  else
    match validateStr s o with
    | .error e => .error (("obscure-string: ").data ++ e)
    | .ok so =>
      match (if o.cacheOn then getFromCache (getCacheKey s so) c else none) with
      | some cached => .ok (cached, c)
      | none =>
        let result := obscureCompute s o so rng rt
        .ok (result, if o.cacheOn then setInCache (getCacheKey s so) result c else c)

/-- Embeds `obscureString` for an arbitrary input value: the non-string
fast path returns the empty string, a string input goes through
`obscureStr`. -/
def obscureString (v : JsVal) (o : Options) (c : Cache)
    (rng : ℕ → Fin 8) (rt : JStr → Char → Bool) : Except JStr (JStr × Cache) :=
  match v with
  | .other => .ok ([], c)
  | .str s => obscureStr s o c rng rt

/-- The argument of `obscureStringBatch`: an array of values, or any
non-array value. -/
inductive BatchArg where
  | arr (xs : List JsVal)
  | notArray

/-- The `strings.map` loop of `obscureStringBatch`: each element is
processed with the shared cache threaded through; a thrown error
contributes an empty string and leaves the cache untouched (validation
fails before any store). -/
def batchGo (o : Options) (rng2 : ℕ → ℕ → Fin 8) (rt : JStr → Char → Bool) :
    List JsVal → Cache → ℕ → (List JStr × Cache)
  | [], c, _ => ([], c)
  | x :: xs, c, i =>
    match obscureString x o c (rng2 i) rt with
    | .ok (r, c') =>
      let rest := batchGo o rng2 rt xs c' (i + 1)
      (r :: rest.1, rest.2)
    | .error _ =>
      let rest := batchGo o rng2 rt xs c (i + 1)
      ([] :: rest.1, rest.2)

/-- Embeds `obscureStringBatch` (src/index.js lines 472-485). -/
def obscureStringBatch (b : BatchArg) (o : Options) (c : Cache)
    (rng2 : ℕ → ℕ → Fin 8) (rt : JStr → Char → Bool) :
    Except JStr (List JStr × Cache) :=
  match b with
  | .notArray => .error ("obscure-string: Input must be an array of strings").data
  | .arr xs => .ok (batchGo o rng2 rt xs c 0)

/-- Modelled from the spec: the `creditCard` preset implementation is not
present under src (only the test suite, README and changelog reference the
`preset` option); spec section 4.2 "Preset — creditCard / phone": strip all
non-digit characters, below 8 remaining digits return the original string
unchanged, otherwise mask all but the last 4 digits with a digits-only
output (mask run + last 4 digits). -/
def presetCreditCard (s : JStr) (maskChar : JStr) : JStr :=
  let digits := s.filter Char.isDigit
  if digits.length < 8 then s
  else jsRepeat maskChar (digits.length - 4) ++ digits.drop (digits.length - 4)

/-- A mask segment of exactly `n` characters: the mask string repeated
enough times to reach the exact character count, then truncated (spec
section 4.2's wording for filling a gap with a possibly multi-character
mask). -/
def maskFill (maskChar : JStr) (n : ℕ) : JStr := (jsRepeat maskChar n).take n

/-- Modelled from the spec: the `fullMask` strategy is not present under
src (only the test suite and changelog reference it); spec section 4.2
"Full": output is the mask character repeated to the total input length,
ignoring prefix/suffix. -/
def fullMaskStrategy (s : JStr) (maskChar : JStr) : JStr :=
  maskFill maskChar s.length

/-- Modelled from the spec: the `reverseMask` strategy is not present
under src (only the test suite and changelog reference it); spec section
4.2 "Reverse": the prefix and suffix zones are masked and the middle shown
verbatim; if the total masked amount is below `minMaskLength` the input is
returned unchanged; if the visible middle would be empty or negative the
entire string is masked. -/
def reverseMaskStrategy (s : JStr) (maskChar : JStr) (p suf minMask : ℕ) : JStr :=
  if p + suf < minMask then s
  else if s.length ≤ p + suf then fullMaskStrategy s maskChar
  else maskFill maskChar p ++ (s.take (s.length - suf)).drop p ++ maskFill maskChar suf

/-- A constant random source and a constant regex oracle, used to
instantiate the injected non-determinism in concrete evaluations. -/
def rng0 : ℕ → Fin 8 := fun _ => 0

/-- A random source that always draws palette index 1 (the character
`#`). -/
def rng1 : ℕ → Fin 8 := fun _ => 1

/-- A regex oracle that rejects every character. -/
def rt0 : JStr → Char → Bool := fun _ _ => false

/-- A per-element random source for batch calls. -/
def rng2z : ℕ → ℕ → Fin 8 := fun _ _ => 0

/-- The fixed, input-independent validation error messages of the
source. -/
def errorMessages : List JStr :=
  [("Input must be a string").data,
   ("Input exceeds maximum length of 1000000 characters").data,
   ("maskChar must be a string").data,
   ("maskChar cannot be empty").data,
   ("maskChar exceeds maximum length of 10 characters").data,
   ("prefixLength must be a non-negative integer").data,
   ("prefixLength exceeds string length").data,
   ("suffixLength must be a non-negative integer").data,
   ("suffixLength exceeds string length").data,
   ("prefixLength + suffixLength cannot exceed string length").data,
   ("percentage must be a number between 0 and 100").data,
   ("preservePattern must be a string").data,
   ("randomMask must be a boolean").data]

lemma validateTail_ok_inv {o : Options} {mc : JStr} {p suf : ℤ}
    {perc : Option ℚ} {so : SanOptions}
    (h : validateTail o mc p suf perc = .ok so) :
    so = ⟨mc, p.toNat, suf.toNat, perc,
          ppValue o.preservePattern, rmValue o.randomMask⟩ := by
  unfold validateTail at h
  repeat' split at h
  any_goals exact Except.noConfusion h
  all_goals simp only [Except.ok.injEq] at h
  all_goals exact h.symm

lemma validateStr_ok_inv {s : JStr} {o : Options} {so : SanOptions}
    (h : validateStr s o = .ok so) :
    so.maskChar ≠ [] ∧ so.maskChar.length ≤ 10 ∧
    so.prefixLength + so.suffixLength ≤ s.length ∧
    so.prefixLength ≤ s.length ∧ so.suffixLength ≤ s.length ∧
    s.length ≤ 1000000 := by
  unfold validateStr at h
  repeat' split at h
  any_goals exact Except.noConfusion h
  all_goals rw [validateTail_ok_inv h]
  all_goals refine ⟨?_, ?_, ?_, ?_, ?_, ?_⟩ <;> simp_all <;> omega

lemma validateStr_perc_inv {s : JStr} {o : Options} {so : SanOptions} {q : ℚ}
    (h : validateStr s o = .ok so) (hq : o.percentage = some (.numV q)) :
    so.percentage = some q ∧ 0 ≤ q ∧ q ≤ 100 := by
  unfold validateStr at h
  repeat' split at h
  any_goals exact Except.noConfusion h
  all_goals rw [validateTail_ok_inv h]
  all_goals simp_all [not_or]

lemma validateStr_content_free {s t : JStr} (o : Options)
    (h : s.length = t.length) : validateStr s o = validateStr t o := by
  unfold validateStr
  rw [h]

lemma validateTail_error_mem {o : Options} {mc : JStr} {p suf : ℤ}
    {perc : Option ℚ} {e : JStr}
    (h : validateTail o mc p suf perc = .error e) : e ∈ errorMessages := by
  unfold validateTail at h
  repeat' split at h
  any_goals exact Except.noConfusion h
  all_goals simp only [Except.error.injEq] at h
  all_goals subst h
  all_goals decide

lemma validateStr_error_mem {s : JStr} {o : Options} {e : JStr}
    (h : validateStr s o = .error e) : e ∈ errorMessages := by
  unfold validateStr at h
  repeat' split at h
  any_goals exact validateTail_error_mem h
  all_goals simp only [Except.error.injEq] at h
  all_goals subst h
  all_goals decide

lemma jsRepeat_zero (m : JStr) : jsRepeat m 0 = [] := rfl

lemma jsRepeat_succ (m : JStr) (n : ℕ) : jsRepeat m (n + 1) = m ++ jsRepeat m n := by
  simp [jsRepeat, List.replicate_succ]

lemma jsRepeat_length (m : JStr) (n : ℕ) : (jsRepeat m n).length = n * m.length := by
  induction n with
  | zero => simp [jsRepeat]
  | succ k ih => simp [jsRepeat_succ, ih, Nat.succ_mul, Nat.add_comm]

lemma jsRepeat_ne_nil {m : JStr} {n : ℕ} (hm : m ≠ []) (hn : n ≠ 0) :
    jsRepeat m n ≠ [] := by
  cases n with
  | zero => exact absurd rfl hn
  | succ k =>
    rw [jsRepeat_succ]
    simp [hm]

lemma jsSliceNeg_ne_nil {s : JStr} (n : ℕ) (hs : s ≠ []) : jsSliceNeg s n ≠ [] := by
  unfold jsSliceNeg
  split
  · exact hs
  · rw [ne_eq, List.drop_eq_nil_iff]
    have h1 : 1 ≤ s.length := List.length_pos.mpr hs
    omega

lemma jsSliceNeg_length {s : JStr} {n : ℕ} (h1 : 1 ≤ n) (h2 : n ≤ s.length) :
    (jsSliceNeg s n).length = n := by
  unfold jsSliceNeg
  rw [if_neg (by omega)]
  rw [List.length_drop]
  omega

lemma maskEmail_ne_nil {s : JStr} (so : SanOptions) (hs : s ≠ []) :
    maskEmail s so ≠ [] := by
  unfold maskEmail
  split
  · exact hs
  · split
    · exact hs
    · simp only []
      split
      · simp_all [List.take_eq_nil_iff]
      · have : s.take 1 ≠ [] := by simp [List.take_eq_nil_iff, hs]
        simp_all

lemma maskPhone_ne_nil {s : JStr} (so : SanOptions) (hs : s ≠ []) :
    maskPhone s so ≠ [] := by
  unfold maskPhone
  simp only []
  split
  · exact hs
  · rename_i hd
    push_neg at hd
    have hdig : (s.filter Char.isDigit) ≠ [] := by
      intro hnil
      rw [hnil] at hd
      simp at hd
    simp [jsSliceNeg_ne_nil _ hdig]

lemma obscureCore_ne_nil {s : JStr} (so : SanOptions) (hs : s ≠ []) :
    obscureCore s so ≠ [] := by
  unfold obscureCore
  simp only []
  split
  · exact hs
  · split
    · simp [jsSliceNeg_ne_nil _ hs]
    · simp [jsSliceNeg_ne_nil _ hs]

lemma percentageMask_eq_self_of_zero {s : JStr} {q : ℚ} (so : SanOptions)
    (h : jsMaskCount s.length q = 0) : percentageMask s q so = s := by
  unfold percentageMask
  simp only [h, jsRepeat_zero, jsTake, jsDrop, Nat.add_zero, List.append_nil]
  exact List.take_append_drop _ s

lemma percentageMask_ne_nil {s : JStr} (q : ℚ) (so : SanOptions) (hs : s ≠ [])
    (hmc : so.maskChar ≠ []) : percentageMask s q so ≠ [] := by
  by_cases h0 : jsMaskCount s.length q = 0
  · rw [percentageMask_eq_self_of_zero so h0]
    exact hs
  · unfold percentageMask
    simp only []
    intro h
    simp only [List.append_eq_nil] at h
    exact jsRepeat_ne_nil hmc h0 h.1.2

lemma randomMaskApply_ne_nil {s : JStr} (so : SanOptions) (rng : ℕ → Fin 8)
    (hs : s ≠ []) : randomMaskApply s so rng ≠ [] := by
  unfold randomMaskApply
  simp only []
  split
  · exact hs
  · simp [jsSliceNeg_ne_nil _ hs]

lemma preserveApply_ne_nil {s : JStr} (so : SanOptions) (rt : JStr → Char → Bool)
    (hs : s ≠ []) : preserveApply s so rt ≠ [] := by
  unfold preserveApply
  simp [jsSliceNeg_ne_nil _ hs]

lemma obscureCompute_ne_nil {s : JStr} {o : Options} {so : SanOptions}
    (rng : ℕ → Fin 8) (rt : JStr → Char → Bool) (hs : s ≠ [])
    (hmc : so.maskChar ≠ []) :
    obscureCompute s o so rng rt ≠ [] := by
  unfold obscureCompute
  split
  · simp only []
    repeat' split
    all_goals first
      | exact maskEmail_ne_nil so hs
      | exact maskPhone_ne_nil so hs
      | exact obscureCore_ne_nil so hs
  · split
    · exact percentageMask_ne_nil _ so hs hmc
    · split
      · exact randomMaskApply_ne_nil so rng hs
      · split
        · exact preserveApply_ne_nil so rt hs
        · exact obscureCore_ne_nil so hs

lemma find?_map_replace (key val : JStr) :
    ∀ (l : Cache), l.any (fun e => e.1 == key) = true →
      (l.map (fun e => if e.1 == key then (key, val) else e)).find?
          (fun e => e.1 == key) = some (key, val)
  | [], h => by simp at h
  | e :: tl, h => by
    by_cases he : (e.1 == key) = true
    · simp only [List.map_cons, if_pos he]
      exact List.find?_cons_of_pos _ (by simp)
    · have he' : (e.1 == key) = false := by simpa using he
      simp only [List.any_cons, he', Bool.false_or] at h
      simp only [List.map_cons, if_neg he]
      rw [List.find?_cons_of_neg _ (by simp [he'])]
      exact find?_map_replace key val tl h

lemma find?_append_single (key val : JStr) :
    ∀ (l : Cache), l.any (fun e => e.1 == key) = false →
      (l ++ [(key, val)]).find? (fun e => e.1 == key) = some (key, val)
  | [], _ => by simp [List.find?]
  | e :: tl, h => by
    simp only [List.any_cons, Bool.or_eq_false_iff] at h
    rw [List.cons_append, List.find?_cons_of_neg _ (by simp [h.1])]
    exact find?_append_single key val tl h.2

lemma getFromCache_mapset {key val : JStr} (l : Cache) (hval : val ≠ []) :
    getFromCache key
      (if l.any (fun e => e.1 == key) then
        l.map (fun e => if e.1 == key then (key, val) else e)
      else l ++ [(key, val)]) = some val := by
  split
  · rename_i h
    unfold getFromCache
    rw [find?_map_replace key val _ h]
    simp [hval]
  · rename_i h
    have h' : l.any (fun e => e.1 == key) = false := by
      cases hx : l.any (fun e => e.1 == key)
      · rfl
      · exact absurd hx h
    unfold getFromCache
    rw [find?_append_single key val _ h']
    simp [hval]

lemma getFromCache_set {key val : JStr} (c : Cache) (hval : val ≠ []) :
    getFromCache key (setInCache key val c) = some val := by
  unfold setInCache
  simp only []
  exact getFromCache_mapset _ hval

lemma obscureStr_miss {s : JStr} {o : Options} {so : SanOptions} {c : Cache}
    (rng : ℕ → Fin 8) (rt : JStr → Char → Bool)
    (hs : s ≠ []) (hv : validateStr s o = .ok so)
    (hm : getFromCache (getCacheKey s so) c = none) :
    obscureStr s o c rng rt =
      .ok (obscureCompute s o so rng rt,
        if o.cacheOn then
          setInCache (getCacheKey s so) (obscureCompute s o so rng rt) c
        else c) := by
  unfold obscureStr
  rw [if_neg (by simpa using hs), hv]
  cases hc : o.cacheOn
  · simp [hc]
  · simp [hc, hm]

lemma obscureStr_hit {s : JStr} {o : Options} {so : SanOptions} {c : Cache}
    {r : JStr} (rng : ℕ → Fin 8) (rt : JStr → Char → Bool)
    (hs : s ≠ []) (hv : validateStr s o = .ok so) (hc : o.cacheOn = true)
    (hh : getFromCache (getCacheKey s so) c = some r) :
    obscureStr s o c rng rt = .ok (r, c) := by
  unfold obscureStr
  rw [if_neg (by simpa using hs), hv]
  simp [hc, hh]

lemma obscureStr_error {s : JStr} {o : Options} {e : JStr}
    (c : Cache) (rng : ℕ → Fin 8) (rt : JStr → Char → Bool)
    (hs : s ≠ []) (hv : validateStr s o = .error e) :
    obscureStr s o c rng rt = .error (("obscure-string: ").data ++ e) := by
  unfold obscureStr
  rw [if_neg (by simpa using hs), hv]

/-- Two consecutive identical calls with caching enabled return the same
value, and the second call leaves the cache unchanged. -/
lemma obscureString_repeat {v : JsVal} {o : Options} {c c₁ : Cache} {r : JStr}
    (rng rng' : ℕ → Fin 8) (rt : JStr → Char → Bool)
    (hc : o.cacheOn = true)
    (h : obscureString v o c rng rt = .ok (r, c₁)) :
    obscureString v o c₁ rng' rt = .ok (r, c₁) := by
  match v with
  | .other =>
    rw [show obscureString .other o c rng rt = .ok ([], c) from rfl] at h
    simp only [Except.ok.injEq, Prod.mk.injEq] at h
    rw [show obscureString .other o c₁ rng' rt = .ok ([], c₁) from rfl, h.1]
  | .str s =>
    rw [show obscureString (.str s) o c rng rt = obscureStr s o c rng rt from rfl] at h
    rw [show obscureString (.str s) o c₁ rng' rt = obscureStr s o c₁ rng' rt from rfl]
    by_cases hnil : s.length = 0
    · unfold obscureStr at h ⊢
      rw [if_pos hnil] at h ⊢
      simp only [Except.ok.injEq, Prod.mk.injEq] at h
      simp [h.1, h.2]
    · have hs : s ≠ [] := by simpa using hnil
      cases hval : validateStr s o with
      | error e =>
        rw [obscureStr_error c rng rt hs hval] at h
        exact Except.noConfusion h
      | ok so =>
        cases hl : getFromCache (getCacheKey s so) c with
        | some cached =>
          rw [obscureStr_hit rng rt hs hval hc hl] at h
          simp only [Except.ok.injEq, Prod.mk.injEq] at h
          rw [← h.2]
          exact obscureStr_hit rng' rt hs hval hc (h.1 ▸ hl)
        | none =>
          rw [obscureStr_miss rng rt hs hval hl, hc, if_pos rfl] at h
          simp only [Except.ok.injEq, Prod.mk.injEq] at h
          have hmc : so.maskChar ≠ [] := (validateStr_ok_inv hval).1
          have hr : obscureCompute s o so rng rt ≠ [] :=
            obscureCompute_ne_nil rng rt hs hmc
          have hlook : getFromCache (getCacheKey s so) c₁ = some r := by
            rw [← h.2, ← h.1]
            exact getFromCache_set c hr
          rw [← h.2] at hlook ⊢
          exact obscureStr_hit rng' rt hs hval hc hlook

lemma obscureStr_cacheOff {s : JStr} {o : Options} {so : SanOptions} {c : Cache}
    (rng : ℕ → Fin 8) (rt : JStr → Char → Bool)
    (hs : s ≠ []) (hv : validateStr s o = .ok so) (hoff : o.cacheOn = false) :
    obscureStr s o c rng rt = .ok (obscureCompute s o so rng rt, c) := by
  unfold obscureStr
  rw [if_neg (by simpa using hs), hv]
  simp [hoff]

lemma validateStr_cacheOn_free (s : JStr) (o : Options) (b : Bool) :
    validateStr s { o with cacheOn := b } = validateStr s o := rfl

lemma obscureCompute_cacheOn_free (s : JStr) (o : Options) (so : SanOptions)
    (rng : ℕ → Fin 8) (rt : JStr → Char → Bool) (b : Bool) :
    obscureCompute s { o with cacheOn := b } so rng rt
      = obscureCompute s o so rng rt := rfl

/-- With no colliding cache entry, the value computed with caching enabled
equals the value computed with caching disabled (against any cache). -/
lemma obscureStr_cache_transparent {s : JStr} {o : Options} {so : SanOptions}
    {c c' : Cache} (rng : ℕ → Fin 8) (rt : JStr → Char → Bool)
    (hs : s ≠ []) (hv : validateStr s o = .ok so)
    (hm : getFromCache (getCacheKey s so) c = none) :
    Except.map Prod.fst (obscureStr s o c rng rt)
      = Except.map Prod.fst (obscureStr s { o with cacheOn := false } c' rng rt) := by
  rw [obscureStr_miss rng rt hs hv hm]
  rw [obscureStr_cacheOff rng rt hs
      (show validateStr s { o with cacheOn := false } = .ok so from hv) rfl]
  rfl

lemma batchGo_length (o : Options) (rng2 : ℕ → ℕ → Fin 8)
    (rt : JStr → Char → Bool) :
    ∀ (xs : List JsVal) (c : Cache) (i : ℕ),
      (batchGo o rng2 rt xs c i).1.length = xs.length
  | [], _, _ => rfl
  | x :: xs, c, i => by
    unfold batchGo
    cases hx : obscureString x o c (rng2 i) rt with
    | ok rc =>
      simp only []
      rw [List.length_cons, batchGo_length o rng2 rt xs rc.2 (i + 1)]
      exact (List.length_cons _ _).symm
    | error e =>
      simp only []
      rw [List.length_cons, batchGo_length o rng2 rt xs c (i + 1)]
      exact (List.length_cons _ _).symm

lemma obscureStr_head_of_fail {s : JStr} {o : Options} {e : JStr} (c : Cache)
    (rng : ℕ → Fin 8) (rt : JStr → Char → Bool)
    (hv : validateStr s o = .error e) :
    obscureStr s o c rng rt = .ok ([], c) ∨
      obscureStr s o c rng rt = .error (("obscure-string: ").data ++ e) := by
  by_cases hnil : s.length = 0
  · left
    unfold obscureStr
    rw [if_pos hnil]
  · right
    exact obscureStr_error c rng rt (by simpa using hnil) hv

lemma batchGo_fail (o : Options) (rng2 : ℕ → ℕ → Fin 8)
    (rt : JStr → Char → Bool) :
    ∀ (xs : List JsVal) (c : Cache) (i j : ℕ) (hj : j < xs.length),
      (xs.get ⟨j, hj⟩ = .other ∨
        ∃ e, validateInput (xs.get ⟨j, hj⟩) o = .error e) →
      (batchGo o rng2 rt xs c i).1.getD j [] = []
  | x :: xs, c, i, 0, hj, hfail => by
    unfold batchGo
    cases hfail with
    | inl hother =>
      simp only [List.get] at hother
      subst hother
      rw [show obscureString .other o c (rng2 i) rt = .ok ([], c) from rfl]
      simp
    | inr herr =>
      obtain ⟨e, he⟩ := herr
      simp only [List.get] at he
      cases x with
      | other =>
        rw [show obscureString .other o c (rng2 i) rt = .ok ([], c) from rfl]
        simp
      | str s =>
        have hv : validateStr s o = .error e := he
        rw [show obscureString (.str s) o c (rng2 i) rt
              = obscureStr s o c (rng2 i) rt from rfl]
        cases obscureStr_head_of_fail c (rng2 i) rt hv with
        | inl hok => rw [hok]; simp
        | inr herr2 => rw [herr2]; simp
  | x :: xs, c, i, j + 1, hj, hfail => by
    unfold batchGo
    have hj' : j < xs.length := by simpa using hj
    have hfail' : (xs.get ⟨j, hj'⟩ = .other ∨
        ∃ e, validateInput (xs.get ⟨j, hj'⟩) o = .error e) := by
      simpa using hfail
    cases hx : obscureString x o c (rng2 i) rt with
    | ok rc =>
      simp only []
      rw [show ((rc.1 :: (batchGo o rng2 rt xs rc.2 (i + 1)).1).getD (j + 1) [])
            = (batchGo o rng2 rt xs rc.2 (i + 1)).1.getD j [] from rfl]
      exact batchGo_fail o rng2 rt xs rc.2 (i + 1) j hj' hfail'
    | error e =>
      simp only []
      rw [show (([] :: (batchGo o rng2 rt xs c (i + 1)).1).getD (j + 1) [])
            = (batchGo o rng2 rt xs c (i + 1)).1.getD j [] from rfl]
      exact batchGo_fail o rng2 rt xs c (i + 1) j hj' hfail'

lemma jsRepeat_singleton (ch : Char) (n : ℕ) :
    jsRepeat (ch :: []) n = List.replicate n ch := by
  induction n with
  | zero => rfl
  | succ k ih => rw [jsRepeat_succ, ih]; rfl

lemma getCacheKey_fields {s t : JStr} {so so' : SanOptions}
    (hlen : s.length = t.length) (hmc : so'.maskChar = so.maskChar)
    (hp : so'.prefixLength = so.prefixLength)
    (hsuf : so'.suffixLength = so.suffixLength)
    (hperc : percKeyPart so'.percentage = percKeyPart so.percentage)
    (hpp : ppKeyPart so'.preservePattern = ppKeyPart so.preservePattern) :
    getCacheKey t so' = getCacheKey s so := by
  unfold getCacheKey
  rw [hlen, hmc, hp, hsuf, hperc, hpp]

lemma obscureStr_ok_lookup {s : JStr} {o : Options} {so : SanOptions}
    {c c₁ : Cache} {r : JStr} {rng : ℕ → Fin 8} {rt : JStr → Char → Bool}
    (hs : s ≠ []) (hv : validateStr s o = .ok so) (hc : o.cacheOn = true)
    (h : obscureStr s o c rng rt = .ok (r, c₁)) :
    getFromCache (getCacheKey s so) c₁ = some r := by
  cases hl : getFromCache (getCacheKey s so) c with
  | some cached =>
    rw [obscureStr_hit rng rt hs hv hc hl] at h
    simp only [Except.ok.injEq, Prod.mk.injEq] at h
    rw [← h.2, ← h.1]
    exact hl
  | none =>
    rw [obscureStr_miss rng rt hs hv hl, hc, if_pos rfl] at h
    simp only [Except.ok.injEq, Prod.mk.injEq] at h
    have hmc : so.maskChar ≠ [] := (validateStr_ok_inv hv).1
    rw [← h.2, ← h.1]
    exact getFromCache_set c (obscureCompute_ne_nil rng rt hs hmc)

lemma validateStr_combined_error {s : JStr} {o : Options} {p suf : ℤ}
    (hmc : o.maskChar = none) (hp : o.prefixLength = some (.intV p))
    (hsuf : o.suffixLength = some (.intV suf))
    (hlen : s.length ≤ 1000000) (hp0 : 0 ≤ p) (hpl : p ≤ (s.length : ℤ))
    (hs0 : 0 ≤ suf) (hsl : suf ≤ (s.length : ℤ))
    (hover : (s.length : ℤ) < p + suf) :
    validateStr s o =
      .error ("prefixLength + suffixLength cannot exceed string length").data := by
  unfold validateStr
  rw [if_neg (by omega), hmc, hp, hsuf]
  simp only [mcValue, numValue]
  rw [if_neg (by simp), if_neg (by simp),
      if_neg (by omega), if_neg (by omega),
      if_neg (by omega), if_neg (by omega), if_pos (by omega)]

lemma validateStr_ps_ok {s : JStr} {p suf : ℤ}
    (hlen : s.length ≤ 1000000) (hp0 : 0 ≤ p) (hpl : p ≤ (s.length : ℤ))
    (hs0 : 0 ≤ suf) (hsl : suf ≤ (s.length : ℤ))
    (hsum : p + suf ≤ (s.length : ℤ)) :
    validateStr s
      { prefixLength := some (.intV p), suffixLength := some (.intV suf) } =
      .ok ⟨'*' :: [], p.toNat, suf.toNat, none, none, none⟩ := by
  unfold validateStr
  rw [if_neg (by omega)]
  simp only [mcValue, numValue]
  rw [if_neg (by simp), if_neg (by simp),
      if_neg (by omega), if_neg (by omega),
      if_neg (by omega), if_neg (by omega), if_neg (by omega)]
  rfl

lemma natLog2Go_spec : ∀ (fuel n : ℕ), 1 ≤ n → n < 2 ^ fuel →
    2 ^ natLog2Go fuel n ≤ n ∧ n < 2 ^ (natLog2Go fuel n + 1)
  | 0, n, h1, h2 => by simp at h2; omega
  | fuel + 1, n, h1, h2 => by
    unfold natLog2Go
    split
    · rename_i hle
      constructor
      · simpa using h1
      · simpa using by omega
    · rename_i hgt
      push_neg at hgt
      have hfuel : n / 2 < 2 ^ fuel := by
        rw [pow_succ] at h2
        omega
      have ih := natLog2Go_spec fuel (n / 2) (by omega) hfuel
      constructor
      · rw [pow_succ]
        omega
      · rw [pow_succ, pow_succ]
        rw [pow_succ] at ih
        omega

lemma natLog2_spec (n : ℕ) (h1 : 1 ≤ n) :
    2 ^ natLog2 n ≤ n ∧ n < 2 ^ (natLog2 n + 1) :=
  natLog2Go_spec n n h1 (Nat.lt_two_pow n)

lemma natClog2Go_spec : ∀ (fuel n : ℕ), 1 ≤ n → n ≤ 2 ^ fuel →
    n ≤ 2 ^ natClog2Go fuel n ∧
      (natClog2Go fuel n = 0 ∨ 2 ^ (natClog2Go fuel n - 1) < n)
  | 0, n, h1, h2 => by
    constructor
    · simpa using h2
    · left; rfl
  | fuel + 1, n, h1, h2 => by
    unfold natClog2Go
    split
    · rename_i hle
      exact ⟨by simpa using hle, Or.inl rfl⟩
    · rename_i hgt
      push_neg at hgt
      have hfuel : (n + 1) / 2 ≤ 2 ^ fuel := by
        rw [pow_succ] at h2
        omega
      have ih := natClog2Go_spec fuel ((n + 1) / 2) (by omega) hfuel
      constructor
      · rw [pow_succ]
        omega
      · right
        simp only [Nat.add_sub_cancel]
        rcases ih.2 with hc0 | hlt
        · rw [hc0]
          omega
        · cases hc' : natClog2Go fuel ((n + 1) / 2) with
          | zero => omega
          | succ k =>
            rw [hc'] at hlt
            simp only [Nat.add_sub_cancel] at hlt
            rw [pow_succ]
            omega

lemma natClog2_spec (n : ℕ) (h1 : 1 ≤ n) :
    n ≤ 2 ^ natClog2 n ∧ (natClog2 n = 0 ∨ 2 ^ (natClog2 n - 1) < n) :=
  natClog2Go_spec n n h1 (Nat.le_of_lt (Nat.lt_two_pow n))

lemma roundNE_bounds (a b : ℕ) : a / b ≤ roundNE a b ∧ roundNE a b ≤ a / b + 1 := by
  unfold roundNE
  simp only []
  split
  · omega
  · split
    · omega
    · split <;> omega

lemma roundNE_exact {a b : ℕ} (hb : 0 < b) (hdvd : b ∣ a) : roundNE a b = a / b := by
  unfold roundNE
  simp only []
  have hmod : a % b = 0 := Nat.dvd_iff_mod_eq_zero.mp hdvd
  rw [hmod, if_pos (by omega)]

lemma ilogND_spec {a b : ℕ} (ha : 1 ≤ a) (hb : 1 ≤ b) :
    (2 : ℚ) ^ ilogND a b ≤ (a : ℚ) / b ∧ (a : ℚ) / b < 2 ^ (ilogND a b + 1) := by
  have hbq : (0 : ℚ) < b := by exact_mod_cast hb
  unfold ilogND
  split
  · rename_i hba
    have hf1 : 1 ≤ a / b := (Nat.one_le_div_iff hb).mpr hba
    obtain ⟨hlow, hhigh⟩ := natLog2_spec (a / b) hf1
    constructor
    · rw [zpow_natCast]
      calc (2 : ℚ) ^ natLog2 (a / b) ≤ ((a / b : ℕ) : ℚ) := by exact_mod_cast hlow
        _ ≤ (a : ℚ) / b := by
            rw [le_div_iff₀ hbq]
            exact_mod_cast Nat.div_mul_le_self a b
    · rw [show ((natLog2 (a / b) : ℤ) + 1) = ((natLog2 (a / b) + 1 : ℕ) : ℤ) by push_cast; ring,
         zpow_natCast]
      have hstep : a < (a / b + 1) * b := by
        have hdm := Nat.div_add_mod a b
        have hmod := Nat.mod_lt a (show 0 < b by omega)
        nlinarith [hdm, hmod]
      calc (a : ℚ) / b < ((a / b : ℕ) + 1 : ℚ) := by
            rw [div_lt_iff₀ hbq]
            exact_mod_cast hstep
        _ ≤ (2 : ℚ) ^ (natLog2 (a / b) + 1) := by exact_mod_cast hhigh
  · rename_i hba
    push_neg at hba
    have haq : (0 : ℚ) < a := by exact_mod_cast ha
    have hm2 : 2 ≤ (b + a - 1) / a := by
      rw [Nat.le_div_iff_mul_le (by omega)]
      omega
    obtain ⟨hup, hstrict⟩ := natClog2_spec ((b + a - 1) / a) (by omega)
    have hc1 : 1 ≤ natClog2 ((b + a - 1) / a) := by
      rcases Nat.eq_zero_or_pos (natClog2 ((b + a - 1) / a)) with h0 | h
      · rw [h0] at hup
        simp at hup
        omega
      · exact h
    cases hc : natClog2 ((b + a - 1) / a) with
    | zero => omega
    | succ k =>
      rw [hc] at hup hstrict
      -- (A) b ≤ a * m where m = (b + a - 1) / a
      have hA : b ≤ a * ((b + a - 1) / a) := by
        have hdm := Nat.div_add_mod (b + a - 1) a
        have hmod := Nat.mod_lt (b + a - 1) (show 0 < a by omega)
        generalize a * ((b + a - 1) / a) = A at hdm ⊢
        omega
      -- (B) a * 2 ^ k < b
      have hB : a * 2 ^ k < b := by
        rcases hstrict with h0 | hlt
        · exact absurd h0 (by omega)
        · simp only [Nat.add_sub_cancel] at hlt
          have hmul : a * ((b + a - 1) / a) ≤ b + a - 1 := Nat.mul_div_le _ _
          have hstep : a * (2 ^ k + 1) ≤ a * ((b + a - 1) / a) :=
            Nat.mul_le_mul_left a (by omega)
          rw [Nat.mul_add, Nat.mul_one] at hstep
          generalize a * ((b + a - 1) / a) = M at hmul hstep
          generalize a * 2 ^ k = X at hstep ⊢
          omega
      constructor
      · rw [zpow_neg, zpow_natCast]
        rw [inv_eq_one_div, div_le_div_iff (by positivity) hbq]
        have : b ≤ a * 2 ^ (k + 1) := le_trans hA (Nat.mul_le_mul_left a hup)
        calc (1 : ℚ) * b = (b : ℚ) := by ring
          _ ≤ ((a * 2 ^ (k + 1) : ℕ) : ℚ) := by exact_mod_cast this
          _ = (a : ℚ) * 2 ^ (k + 1) := by push_cast; ring
      · rw [show (-(((k : ℕ) + 1 : ℕ) : ℤ) + 1) = -(k : ℤ) by push_cast; ring]
        rw [zpow_neg, zpow_natCast]
        rw [inv_eq_one_div, div_lt_div_iff hbq (by positivity)]
        calc (a : ℚ) * 2 ^ k = ((a * 2 ^ k : ℕ) : ℚ) := by push_cast; ring
          _ < (b : ℚ) := by exact_mod_cast hB
          _ = 1 * b := by ring

lemma le_roundNE_of_le {a b lo : ℕ} (hb : 0 < b) (h : (lo : ℚ) ≤ (a : ℚ) / b) :
    lo ≤ roundNE a b := by
  have hbq : (0 : ℚ) < b := by exact_mod_cast hb
  have hfl : lo ≤ a / b := by
    rw [Nat.le_div_iff_mul_le hb]
    exact_mod_cast (le_div_iff₀ hbq).mp h
  exact le_trans hfl (roundNE_bounds a b).1

lemma roundNE_le_of_lt {a b hi : ℕ} (hb : 0 < b) (h : (a : ℚ) / b < hi) :
    roundNE a b ≤ hi := by
  have hbq : (0 : ℚ) < b := by exact_mod_cast hb
  have hfl : a / b < hi := by
    have h1 : ((a / b : ℕ) : ℚ) ≤ (a : ℚ) / b := by
      rw [le_div_iff₀ hbq]
      exact_mod_cast Nat.div_mul_le_self a b
    exact_mod_cast lt_of_le_of_lt h1 h
  exact le_trans (roundNE_bounds a b).2 (by omega)

lemma fl53ND_bounds {a b : ℕ} (ha : 1 ≤ a) (hb : 1 ≤ b) :
    (2 : ℚ) ^ ilogND a b ≤ dyVal (fl53ND a b) ∧
      dyVal (fl53ND a b) ≤ 2 ^ (ilogND a b + 1) := by
  obtain ⟨hlo, hhi⟩ := ilogND_spec ha hb
  have hbq : (0 : ℚ) < b := by exact_mod_cast hb
  have h52 : ((2 ^ 52 : ℕ) : ℚ) = (2 : ℚ) ^ (52 : ℤ) := by norm_num
  have h53 : ((2 ^ 53 : ℕ) : ℚ) = (2 : ℚ) ^ (53 : ℤ) := by norm_num
  have hsplit : ∀ (x y : ℤ), (2 : ℚ) ^ (x + y) = 2 ^ x * 2 ^ y :=
    fun x y => zpow_add₀ (by norm_num) x y
  unfold fl53ND
  rw [if_neg (by omega)]
  simp only []
  split
  · rename_i hpos
    set et := (ilogND a b - 52).toNat with hetdef
    have het : (et : ℤ) = ilogND a b - 52 := Int.toNat_of_nonneg hpos
    have hb2 : 0 < b * 2 ^ et := by positivity
    have hzval : (a : ℚ) / ((b * 2 ^ et : ℕ) : ℚ) = (a : ℚ) / b / 2 ^ (et : ℤ) := by
      push_cast
      rw [zpow_natCast, div_div]
    have hlow2 : ((2 ^ 52 : ℕ) : ℚ) ≤ (a : ℚ) / ((b * 2 ^ et : ℕ) : ℚ) := by
      rw [hzval, h52, le_div_iff₀ (by positivity)]
      rw [← hsplit]
      have he : (52 : ℤ) + et = ilogND a b := by omega
      rw [he]
      exact hlo
    have hhi2 : (a : ℚ) / ((b * 2 ^ et : ℕ) : ℚ) < ((2 ^ 53 : ℕ) : ℚ) := by
      rw [hzval, h53, div_lt_iff₀ (by positivity)]
      rw [← hsplit]
      have he : (53 : ℤ) + et = ilogND a b + 1 := by omega
      rw [he]
      exact hhi
    have hrlo : 2 ^ 52 ≤ roundNE a (b * 2 ^ et) := le_roundNE_of_le hb2 hlow2
    have hrhi : roundNE a (b * 2 ^ et) ≤ 2 ^ 53 := roundNE_le_of_lt hb2 hhi2
    unfold dyVal
    simp only []
    constructor
    · calc (2 : ℚ) ^ ilogND a b = 2 ^ (52 : ℤ) * 2 ^ (ilogND a b - 52) := by
            rw [← hsplit]
            congr 1
            omega
        _ ≤ (roundNE a (b * 2 ^ et) : ℚ) * 2 ^ (ilogND a b - 52) := by
            apply mul_le_mul_of_nonneg_right _ (by positivity)
            rw [← h52]
            exact_mod_cast hrlo
    · calc (roundNE a (b * 2 ^ et) : ℚ) * 2 ^ (ilogND a b - 52)
            ≤ (2 : ℚ) ^ (53 : ℤ) * 2 ^ (ilogND a b - 52) := by
            apply mul_le_mul_of_nonneg_right _ (by positivity)
            rw [← h53]
            exact_mod_cast hrhi
        _ = 2 ^ (ilogND a b + 1) := by
            rw [← hsplit]
            congr 1
            omega
  · rename_i hneg
    push_neg at hneg
    set et := (-(ilogND a b - 52)).toNat with hetdef
    have het : (et : ℤ) = -(ilogND a b - 52) := Int.toNat_of_nonneg (by omega)
    have hzval : ((a * 2 ^ et : ℕ) : ℚ) / (b : ℚ) = (a : ℚ) / b * 2 ^ (et : ℤ) := by
      push_cast
      rw [zpow_natCast]
      ring
    have hlow2 : ((2 ^ 52 : ℕ) : ℚ) ≤ ((a * 2 ^ et : ℕ) : ℚ) / b := by
      rw [hzval, h52]
      calc (2 : ℚ) ^ (52 : ℤ) = 2 ^ ilogND a b * 2 ^ (et : ℤ) := by
            rw [← hsplit]
            congr 1
            omega
        _ ≤ (a : ℚ) / b * 2 ^ (et : ℤ) :=
            mul_le_mul_of_nonneg_right hlo (by positivity)
    have hhi2 : ((a * 2 ^ et : ℕ) : ℚ) / b < ((2 ^ 53 : ℕ) : ℚ) := by
      rw [hzval, h53]
      calc (a : ℚ) / b * 2 ^ (et : ℤ) < 2 ^ (ilogND a b + 1) * 2 ^ (et : ℤ) :=
            mul_lt_mul_of_pos_right hhi (by positivity)
        _ = (2 : ℚ) ^ (53 : ℤ) := by
            rw [← hsplit]
            congr 1
            omega
    have hrlo : 2 ^ 52 ≤ roundNE (a * 2 ^ et) b := le_roundNE_of_le hb hlow2
    have hrhi : roundNE (a * 2 ^ et) b ≤ 2 ^ 53 := roundNE_le_of_lt hb hhi2
    unfold dyVal
    simp only []
    constructor
    · calc (2 : ℚ) ^ ilogND a b = 2 ^ (52 : ℤ) * 2 ^ (ilogND a b - 52) := by
            rw [← hsplit]
            congr 1
            omega
        _ ≤ (roundNE (a * 2 ^ et) b : ℚ) * 2 ^ (ilogND a b - 52) := by
            apply mul_le_mul_of_nonneg_right _ (by positivity)
            rw [← h52]
            exact_mod_cast hrlo
    · calc (roundNE (a * 2 ^ et) b : ℚ) * 2 ^ (ilogND a b - 52)
            ≤ (2 : ℚ) ^ (53 : ℤ) * 2 ^ (ilogND a b - 52) := by
            apply mul_le_mul_of_nonneg_right _ (by positivity)
            rw [← h53]
            exact_mod_cast hrhi
        _ = 2 ^ (ilogND a b + 1) := by
            rw [← hsplit]
            congr 1
            omega

lemma roundNE_of_lo {a b : ℕ} (hz : 2 * (a % b) < b) : roundNE a b = a / b := by
  unfold roundNE
  simp only []
  rw [if_pos hz]

lemma roundNE_of_hi {a b : ℕ} (hz : b < 2 * (a % b)) : roundNE a b = a / b + 1 := by
  unfold roundNE
  simp only []
  rw [if_neg (by omega), if_pos hz]

lemma roundNE_of_tie {a b : ℕ} (hz : 2 * (a % b) = b) :
    roundNE a b = (if a / b % 2 = 0 then a / b else a / b + 1) := by
  unfold roundNE
  simp only []
  rw [if_neg (by omega), if_neg (by omega)]

lemma roundNE_mono {a b a' b' : ℕ} (hb : 0 < b) (hb' : 0 < b')
    (h : (a : ℚ) / b ≤ (a' : ℚ) / b') : roundNE a b ≤ roundNE a' b' := by
  have hbq : (0 : ℚ) < b := by exact_mod_cast hb
  have hbq' : (0 : ℚ) < b' := by exact_mod_cast hb'
  have hcross : a * b' ≤ a' * b := by
    have := (div_le_div_iff hbq hbq').mp h
    exact_mod_cast this
  have hdm : b * (a / b) + a % b = a := Nat.div_add_mod a b
  have hdm' : b' * (a' / b') + a' % b' = a' := Nat.div_add_mod a' b'
  have hflo : a / b ≤ a' / b' := by
    rw [Nat.le_div_iff_mul_le hb']
    have h1 : a / b * b' * b ≤ a' * b := by
      calc a / b * b' * b = a / b * b * b' := by ring
        _ ≤ a * b' := Nat.mul_le_mul_right b' (Nat.div_mul_le_self a b)
        _ ≤ a' * b := hcross
    exact Nat.le_of_mul_le_mul_right h1 hb
  rcases Nat.lt_or_ge (a / b) (a' / b') with hlt | hge
  · have h1 := (roundNE_bounds a b).2
    have h2 := (roundNE_bounds a' b').1
    omega
  · have hfe : a / b = a' / b' := by omega
    have e1 : a * b' = b * (a / b) * b' + (a % b) * b' := by
      conv_lhs => rw [← hdm]
      ring
    have e2 : a' * b = b * (a / b) * b' + (a' % b') * b := by
      conv_lhs => rw [← hdm']
      rw [hfe]
      ring
    have hrem : (a % b) * b' ≤ (a' % b') * b := by
      rw [e1, e2] at hcross
      omega
    rcases Nat.lt_trichotomy (2 * (a % b)) b with hz1 | hz1 | hz1
    · rw [roundNE_of_lo hz1]
      have h2 := (roundNE_bounds a' b').1
      omega
    · -- tie in the first fraction: b = 2 r₁
      have hz2 : b' ≤ 2 * (a' % b') := by
        have c1 : b' * b ≤ (2 * (a' % b')) * b := by
          calc b' * b = b * b' := by ring
            _ = (2 * (a % b)) * b' := by rw [hz1]
            _ = 2 * ((a % b) * b') := by ring
            _ ≤ 2 * ((a' % b') * b) := by omega
            _ = (2 * (a' % b')) * b := by ring
        exact Nat.le_of_mul_le_mul_right c1 hb
      rw [roundNE_of_tie hz1]
      rcases Nat.lt_or_ge b' (2 * (a' % b')) with hs2 | hs2
      · rw [roundNE_of_hi hs2]
        split <;> omega
      · have htie2 : 2 * (a' % b') = b' := by omega
        rw [roundNE_of_tie htie2, hfe]
    · -- round₁ = f + 1 forces round₂ = f + 1
      have hs2 : b' < 2 * (a' % b') := by
        have c1 : b' * b < (2 * (a' % b')) * b := by
          calc b' * b = b * b' := by ring
            _ < (2 * (a % b)) * b' := (Nat.mul_lt_mul_right (show 0 < b' by omega)).mpr hz1
            _ = 2 * ((a % b) * b') := by ring
            _ ≤ 2 * ((a' % b') * b) := by omega
            _ = (2 * (a' % b')) * b := by ring
        exact Nat.lt_of_mul_lt_mul_right c1
      rw [roundNE_of_hi hz1, roundNE_of_hi hs2]
      omega

lemma fl53ND_mono {a b a' b' : ℕ} (ha : 1 ≤ a) (hb : 1 ≤ b) (ha' : 1 ≤ a')
    (hb' : 1 ≤ b') (h : (a : ℚ) / b ≤ (a' : ℚ) / b') :
    dyVal (fl53ND a b) ≤ dyVal (fl53ND a' b') := by
  have hbq : (0 : ℚ) < b := by exact_mod_cast hb
  have hbq' : (0 : ℚ) < b' := by exact_mod_cast hb'
  have hilog : ilogND a b ≤ ilogND a' b' := by
    by_contra hcon
    push_neg at hcon
    have h1 := (ilogND_spec ha hb).1
    have h2 := (ilogND_spec ha' hb').2
    have : (a' : ℚ) / b' < (a : ℚ) / b := by
      calc (a' : ℚ) / b' < 2 ^ (ilogND a' b' + 1) := h2
        _ ≤ 2 ^ (ilogND a b) := by
            apply zpow_le_zpow_right₀ (by norm_num)
            omega
        _ ≤ (a : ℚ) / b := h1
    linarith
  rcases lt_or_eq_of_le hilog with hlt | heq
  · calc dyVal (fl53ND a b) ≤ 2 ^ (ilogND a b + 1) := (fl53ND_bounds ha hb).2
      _ ≤ 2 ^ (ilogND a' b') := by
          apply zpow_le_zpow_right₀ (by norm_num)
          omega
      _ ≤ dyVal (fl53ND a' b') := (fl53ND_bounds ha' hb').1
  · unfold fl53ND
    rw [if_neg (show ¬(a = 0) by omega), if_neg (show ¬(a' = 0) by omega)]
    simp only []
    rw [← heq]
    split
    · rename_i hpos
      set et := (ilogND a b - 52).toNat with hetdef
      unfold dyVal
      simp only []
      apply mul_le_mul_of_nonneg_right _ (by positivity)
      have hmono : roundNE a (b * 2 ^ et) ≤ roundNE a' (b' * 2 ^ et) := by
        apply roundNE_mono (by positivity) (by positivity)
        calc (a : ℚ) / ((b * 2 ^ et : ℕ) : ℚ) = (a : ℚ) / b / 2 ^ (et : ℕ) := by
              push_cast
              rw [div_div]
          _ ≤ (a' : ℚ) / b' / 2 ^ (et : ℕ) := by gcongr
          _ = (a' : ℚ) / ((b' * 2 ^ et : ℕ) : ℚ) := by
              push_cast
              rw [div_div]
      exact_mod_cast hmono
    · rename_i hneg
      set et := (-(ilogND a b - 52)).toNat with hetdef
      unfold dyVal
      simp only []
      apply mul_le_mul_of_nonneg_right _ (by positivity)
      have hmono : roundNE (a * 2 ^ et) b ≤ roundNE (a' * 2 ^ et) b' := by
        apply roundNE_mono (by omega) (by omega)
        calc ((a * 2 ^ et : ℕ) : ℚ) / b = (a : ℚ) / b * 2 ^ (et : ℕ) := by
              push_cast
              ring
          _ ≤ (a' : ℚ) / b' * 2 ^ (et : ℕ) := by gcongr
          _ = ((a' * 2 ^ et : ℕ) : ℚ) / b' := by
              push_cast
              ring
      exact_mod_cast hmono

lemma fl53ND_int_exact {n : ℕ} (h1 : 1 ≤ n) (h2 : n < 2 ^ 53) :
    dyVal (fl53ND n 1) = n := by
  have hk := natLog2_spec n h1
  have hilog : ilogND n 1 = (natLog2 n : ℤ) := by
    unfold ilogND
    rw [if_pos h1, Nat.div_one]
  have hk53 : natLog2 n ≤ 52 := by
    by_contra hcon
    push_neg at hcon
    have hpow : (2 : ℕ) ^ 53 ≤ 2 ^ natLog2 n := Nat.pow_le_pow_right (by norm_num) (by omega)
    have := hk.1
    omega
  unfold fl53ND
  rw [if_neg (by omega)]
  simp only []
  rw [hilog]
  split
  · rename_i hpos
    have hk52 : natLog2 n = 52 := by omega
    rw [hk52]
    norm_num
    rw [roundNE_exact (by norm_num) (one_dvd n), Nat.div_one]
    unfold dyVal
    norm_num
  · rename_i hneg
    have hdvd : (1 : ℕ) ∣ n * 2 ^ (-((natLog2 n : ℤ) - 52)).toNat := one_dvd _
    rw [roundNE_exact (by norm_num) hdvd, Nat.div_one]
    unfold dyVal
    simp only []
    have het : ((-((natLog2 n : ℤ) - 52)).toNat : ℤ) = 52 - natLog2 n :=
      by rw [Int.toNat_of_nonneg (by omega)]; omega
    push_cast
    rw [← zpow_natCast (2 : ℚ) (-((natLog2 n : ℤ) - 52)).toNat, het]
    rw [mul_assoc, ← zpow_add₀ (by norm_num : (2:ℚ) ≠ 0)]
    norm_num

lemma floorStep_le (p : ℕ × ℤ) :
    ((if 0 ≤ p.2 then p.1 * 2 ^ p.2.toNat else p.1 / 2 ^ (-p.2).toNat : ℕ) : ℚ)
      ≤ dyVal p := by
  unfold dyVal
  split
  · rename_i hpos
    push_cast
    rw [← zpow_natCast (2 : ℚ) p.2.toNat, Int.toNat_of_nonneg hpos]
  · rename_i hneg
    push_neg at hneg
    calc ((p.1 / 2 ^ (-p.2).toNat : ℕ) : ℚ)
          ≤ (p.1 : ℚ) / ((2 ^ (-p.2).toNat : ℕ) : ℚ) := Nat.cast_div_le
      _ = (p.1 : ℚ) * 2 ^ p.2 := by
          push_cast
          rw [div_eq_mul_inv, ← zpow_natCast (2 : ℚ) (-p.2).toNat,
              Int.toNat_of_nonneg (by omega), ← zpow_neg]
          norm_num

lemma fl53ND_fst_pos {a b : ℕ} (ha : 1 ≤ a) (hb : 1 ≤ b) :
    1 ≤ (fl53ND a b).1 := by
  by_contra hcon
  push_neg at hcon
  have h0 : (fl53ND a b).1 = 0 := by omega
  have hlow := (fl53ND_bounds ha hb).1
  unfold dyVal at hlow
  rw [h0] at hlow
  simp at hlow
  have : (0 : ℚ) < 2 ^ ilogND a b := by positivity
  linarith

lemma fl53ND_le_one {a b : ℕ} (ha : 1 ≤ a) (hab : a ≤ b) :
    dyVal (fl53ND a b) ≤ 1 := by
  have hb : 1 ≤ b := le_trans ha hab
  rcases eq_or_lt_of_le hab with heq | hlt
  · -- a = b: the fraction is exactly one, and one is exactly representable
    subst heq
    unfold fl53ND
    rw [if_neg (by omega)]
    simp only []
    have hilog : ilogND a a = 0 := by
      unfold ilogND
      rw [if_pos le_rfl, Nat.div_self (by omega)]
      rfl
    rw [hilog]
    rw [if_neg (show ¬((0:ℤ) ≤ 0 - 52) by omega)]
    have het : (-((0:ℤ) - 52)).toNat = 52 := by decide
    rw [het]
    rw [roundNE_exact (show 0 < a by omega) (Dvd.intro _ rfl)]
    rw [Nat.mul_div_cancel_left _ (show 0 < a by omega)]
    unfold dyVal
    simp only []
    have h1 : ((2 ^ 52 : ℕ) : ℚ) = (2 : ℚ) ^ (52 : ℤ) := by norm_num
    rw [h1, ← zpow_add₀ (by norm_num : (2:ℚ) ≠ 0)]
    norm_num
  · -- a < b: the value is below 2 ^ (ilog + 1) ≤ 2 ^ 0 = 1
    have hbq : (0 : ℚ) < b := by exact_mod_cast hb
    have hfr : (a : ℚ) / b < 1 := by
      rw [div_lt_one hbq]
      exact_mod_cast hlt
    have hneg : ilogND a b < 0 := by
      by_contra hcon
      push_neg at hcon
      have h1 := (ilogND_spec ha hb).1
      have h2 : (1 : ℚ) ≤ 2 ^ ilogND a b := one_le_zpow₀ (by norm_num) hcon
      linarith
    calc dyVal (fl53ND a b) ≤ 2 ^ (ilogND a b + 1) := (fl53ND_bounds ha hb).2
      _ ≤ 2 ^ (0 : ℤ) := by
          apply zpow_le_zpow_right₀ (by norm_num)
          omega
      _ = 1 := by norm_num

lemma jsMaskCount_le_aux {len a2 b2 : ℕ} (ha2 : 1 ≤ a2) (hb2 : 1 ≤ b2)
    (hfr : (a2 : ℚ) / b2 ≤ len) (hlen1 : 1 ≤ len) (hlen53 : len < 2 ^ 53) :
    (if 0 ≤ (fl53ND a2 b2).2 then (fl53ND a2 b2).1 * 2 ^ (fl53ND a2 b2).2.toNat
     else (fl53ND a2 b2).1 / 2 ^ (-(fl53ND a2 b2).2).toNat) ≤ len := by
  have hmono := fl53ND_mono ha2 hb2 hlen1 le_rfl (by
    rw [Nat.cast_one, div_one]
    exact hfr)
  rw [fl53ND_int_exact hlen1 hlen53] at hmono
  have hfloor := floorStep_le (fl53ND a2 b2)
  have hfin : ((if 0 ≤ (fl53ND a2 b2).2 then
      (fl53ND a2 b2).1 * 2 ^ (fl53ND a2 b2).2.toNat
      else (fl53ND a2 b2).1 / 2 ^ (-(fl53ND a2 b2).2).toNat : ℕ) : ℚ) ≤ (len : ℚ) :=
    le_trans hfloor hmono
  exact_mod_cast hfin

lemma jsMaskCount_le {len : ℕ} {q : ℚ} (hq0 : 0 ≤ q) (hq1 : q ≤ 100)
    (hlen : len ≤ 1000000) : jsMaskCount len q ≤ len := by
  unfold jsMaskCount
  simp only []
  by_cases ha0 : q.num.toNat = 0
  · rw [ha0]
    rw [show fl53ND 0 (q.den * 100) = (0, 0) from by unfold fl53ND; rw [if_pos rfl]]
    norm_num
    rw [show fl53ND 0 1 = (0, 0) from by unfold fl53ND; rw [if_pos rfl]]
    norm_num
  · have ha1 : 1 ≤ q.num.toNat := by omega
    have hb1 : 1 ≤ q.den * 100 := by
      have := q.den_pos
      omega
    have hab : q.num.toNat ≤ q.den * 100 := by
      have hq100 : q.num ≤ (q.den : ℤ) * 100 := by
        have hd : (0 : ℚ) < (q.den : ℚ) := by exact_mod_cast q.den_pos
        have h2 : (q.num : ℚ) ≤ (q.den : ℚ) * 100 := by
          rw [← Rat.num_div_den q, div_le_iff₀ hd] at hq1
          linarith
        exact_mod_cast h2
      omega
    set P := fl53ND q.num.toNat (q.den * 100) with hP
    have hval1 : dyVal P ≤ 1 := fl53ND_le_one ha1 hab
    have hval0 : (0 : ℚ) ≤ dyVal P := by
      unfold dyVal
      positivity
    have hm1 : 1 ≤ P.1 := fl53ND_fst_pos ha1 hb1
    by_cases hlen0 : len = 0
    · subst hlen0
      split
      · rename_i hpos
        norm_num
        rw [show fl53ND 0 1 = (0, 0) from by unfold fl53ND; rw [if_pos rfl]]
        norm_num
      · rename_i hneg
        norm_num
        rw [show fl53ND 0 (2 ^ (-P.2).toNat) = (0, 0)
              from by unfold fl53ND; rw [if_pos rfl]]
        norm_num
    · have hlen1 : 1 ≤ len := by omega
      have hlen53 : len < 2 ^ 53 := by
        calc len ≤ 1000000 := hlen
          _ < 2 ^ 53 := by norm_num
      split
      · rename_i hpos
        apply jsMaskCount_le_aux _ le_rfl _ hlen1 hlen53
        · have h2p : 1 ≤ 2 ^ P.2.toNat := Nat.one_le_two_pow
          calc 1 = 1 * 1 * 1 := by norm_num
            _ ≤ len * P.1 * 2 ^ P.2.toNat :=
                Nat.mul_le_mul (Nat.mul_le_mul hlen1 hm1) h2p
        · rw [Nat.cast_one, div_one]
          calc ((len * P.1 * 2 ^ P.2.toNat : ℕ) : ℚ)
                = (len : ℚ) * ((P.1 : ℚ) * 2 ^ (P.2.toNat : ℕ)) := by
                push_cast
                ring
            _ = (len : ℚ) * dyVal P := by
                unfold dyVal
                rw [← zpow_natCast (2 : ℚ) P.2.toNat, Int.toNat_of_nonneg hpos]
            _ ≤ (len : ℚ) * 1 := mul_le_mul_of_nonneg_left hval1 (by positivity)
            _ = (len : ℚ) := by ring
      · rename_i hneg
        push_neg at hneg
        apply jsMaskCount_le_aux _ Nat.one_le_two_pow _ hlen1 hlen53
        · exact Nat.one_le_iff_ne_zero.mpr (by positivity)
        · have hmle : (P.1 : ℚ) ≤ 2 ^ (-P.2).toNat := by
            have hdv : dyVal P = (P.1 : ℚ) / 2 ^ (-P.2).toNat := by
              unfold dyVal
              rw [div_eq_mul_inv, ← zpow_natCast (2 : ℚ) (-P.2).toNat,
                  Int.toNat_of_nonneg (by omega), ← zpow_neg]
              norm_num
            rw [hdv, div_le_one (by positivity)] at hval1
            exact hval1
          rw [div_le_iff₀ (by positivity)]
          calc ((len * P.1 : ℕ) : ℚ) = (len : ℚ) * P.1 := by push_cast; ring
            _ ≤ (len : ℚ) * 2 ^ (-P.2).toNat :=
                mul_le_mul_of_nonneg_left hmle (by positivity)
            _ = (len : ℚ) * ((2 ^ (-P.2).toNat : ℕ) : ℚ) := by push_cast; ring

lemma flatten_map_length_one {α : Type} {f : α → JStr} (hf : ∀ x, (f x).length = 1) :
    ∀ (l : List α), ((l.map f).flatten).length = l.length
  | [] => rfl
  | a :: t => by
    simp only [List.map_cons, List.flatten_cons, List.length_append, List.length_cons,
      hf, flatten_map_length_one hf t]
    omega

lemma obscureCore_length {s : JStr} {so : SanOptions}
    (hmc1 : so.maskChar.length = 1) (hsuf : 1 ≤ so.suffixLength)
    (hlt : so.prefixLength + so.suffixLength < s.length) :
    (obscureCore s so).length = s.length := by
  unfold obscureCore
  simp only []
  rw [if_neg (by omega)]
  have h1 : (jsTake s so.prefixLength).length = so.prefixLength := by
    unfold jsTake
    rw [List.length_take]
    omega
  have h2 : (jsRepeat so.maskChar (s.length - so.prefixLength - so.suffixLength)).length
      = s.length - so.prefixLength - so.suffixLength := by
    rw [jsRepeat_length, hmc1]
    omega
  have h3 : (jsSliceNeg s so.suffixLength).length = so.suffixLength :=
    jsSliceNeg_length hsuf (by omega)
  split
  · simp only [List.length_append, h1, h2, h3]
    omega
  · simp only [List.flatten, List.append_nil, List.length_append, h1, h2, h3]
    omega

lemma percentageMask_length {s : JStr} {q : ℚ} {so : SanOptions}
    (hmc1 : so.maskChar.length = 1) (hq0 : 0 ≤ q) (hq1 : q ≤ 100)
    (hlen : s.length ≤ 1000000) :
    (percentageMask s q so).length = s.length := by
  have hmc := @jsMaskCount_le (List.length s) q hq0 hq1 hlen
  unfold percentageMask
  simp only []
  have hstart : (s.length - jsMaskCount s.length q) / 2 ≤ s.length - jsMaskCount s.length q :=
    Nat.div_le_self _ _
  simp only [List.length_append, jsTake, jsDrop, List.length_take, List.length_drop,
    jsRepeat_length, hmc1]
  omega

lemma randomMaskApply_length {s : JStr} {so : SanOptions} (rng : ℕ → Fin 8)
    (hsuf : 1 ≤ so.suffixLength) (hle : so.prefixLength + so.suffixLength ≤ s.length)
    (hdraw : ∀ i, (getRandomMaskChar (rng i)).length = 1) :
    (randomMaskApply s so rng).length = s.length := by
  unfold randomMaskApply
  simp only []
  split
  · rfl
  · have h3 : (jsSliceNeg s so.suffixLength).length = so.suffixLength :=
      jsSliceNeg_length hsuf (by omega)
    have hmid := flatten_map_length_one (fun i => hdraw i)
      (List.range (s.length - so.prefixLength - so.suffixLength))
    simp only [List.length_append, jsTake, List.length_take, hmid,
      List.length_range, h3]
    omega

lemma preserveApply_length {s : JStr} {so : SanOptions} (rt : JStr → Char → Bool)
    (hmc1 : so.maskChar.length = 1) (hsuf : 1 ≤ so.suffixLength)
    (hle : so.prefixLength + so.suffixLength ≤ s.length) :
    (preserveApply s so rt).length = s.length := by
  unfold preserveApply
  simp only []
  have hmid : ((((s.take (s.length - so.suffixLength)).drop so.prefixLength).map
      (fun ch => if rt (so.preservePattern.getD []) ch then [ch] else so.maskChar)).flatten).length
      = s.length - so.suffixLength - so.prefixLength := by
    rw [flatten_map_length_one]
    · rw [List.length_drop, List.length_take]
      omega
    · intro ch
      split
      · rfl
      · exact hmc1
  have h3 : (jsSliceNeg s so.suffixLength).length = so.suffixLength :=
    jsSliceNeg_length hsuf (by omega)
  simp only [List.length_append, jsTake, List.length_take, hmid, h3]
  omega

lemma maskFill_length {mc : JStr} (hmc : mc ≠ []) (n : ℕ) :
    (maskFill mc n).length = n := by
  unfold maskFill
  rw [List.length_take, jsRepeat_length]
  have : 1 ≤ mc.length := List.length_pos.mpr hmc
  exact Nat.min_eq_left (by nlinarith)

lemma fullMaskStrategy_length {s mc : JStr} (hmc : mc ≠ []) :
    (fullMaskStrategy s mc).length = s.length := by
  unfold fullMaskStrategy
  exact maskFill_length hmc _

lemma reverseMaskStrategy_length {s mc : JStr} (hmc : mc ≠ []) (p suf minMask : ℕ) :
    (reverseMaskStrategy s mc p suf minMask).length = s.length := by
  unfold reverseMaskStrategy
  split
  · rfl
  · split
    · exact fullMaskStrategy_length hmc
    · rename_i h1 h2
      push_neg at h1 h2
      simp only [List.length_append, maskFill_length hmc, List.length_drop,
        List.length_take]
      omega

lemma percentageMask_full {s : JStr} {q : ℚ} (so : SanOptions)
    (h : jsMaskCount s.length q = s.length) :
    percentageMask s q so = jsRepeat so.maskChar s.length := by
  unfold percentageMask
  simp only [h, Nat.sub_self, Nat.zero_div, Nat.zero_add, jsTake, jsDrop,
    List.take_zero, List.drop_length, List.nil_append, List.append_nil]

lemma obscureCompute_percentage {s : JStr} {o : Options} {so : SanOptions}
    {q : ℚ} (rng : ℕ → Fin 8) (rt : JStr → Char → Bool)
    (hpat : o.pattern = none) (hperc : o.percentage = some (.numV q)) :
    obscureCompute s o so rng rt = percentageMask s q so := by
  unfold obscureCompute
  have hp : patTruthy o = false := by
    unfold patTruthy
    rw [hpat]
    rfl
  rw [hp, hperc]
  simp only [Bool.false_eq_true, if_false, Option.isSome_some, if_true]

lemma presetCreditCard_masked {s : JStr} {ch : Char}
    (h : 8 ≤ (s.filter Char.isDigit).length) :
    presetCreditCard s (ch :: []) =
      List.replicate ((s.filter Char.isDigit).length - 4) ch
        ++ (s.filter Char.isDigit).drop ((s.filter Char.isDigit).length - 4) ∧
    (presetCreditCard s (ch :: [])).length = (s.filter Char.isDigit).length := by
  unfold presetCreditCard
  simp only []
  rw [if_neg (by omega), jsRepeat_singleton]
  refine ⟨rfl, ?_⟩
  simp only [List.length_append, List.length_replicate, List.length_drop]
  omega

/-- Claim C1 as stated is refuted: `obscureString("short", {prefixLength: 3,
suffixLength: 3})` does not return `"short"` — the combined-length check of
`validateInput` (src/index.js line 83) rejects `length < prefixLength +
suffixLength` before `obscureCore`'s passthrough can run, and at
`length = 6 > 5` it throws. -/
theorem C1_counterexample :
    obscureStr ("short").data
        { prefixLength := some (.intV 3), suffixLength := some (.intV 3) }
        [] rng0 rt0
      = .error (("obscure-string: ").data
          ++ ("prefixLength + suffixLength cannot exceed string length").data) := by
  decide

/-- Claim C1 (amended): the too-short passthrough only survives validation in
the boundary case `length(input) = prefixLength + suffixLength`, where the
call returns the input unchanged; for `length(input) < prefixLength +
suffixLength` (each bound individually in range) the call instead raises the
combined-length validation error. -/
theorem C1_claim (s : JStr) (p suf : ℤ) (rng : ℕ → Fin 8) (rt : JStr → Char → Bool)
    (hp0 : 0 ≤ p) (hs0 : 0 ≤ suf)
    (hpl : p ≤ (s.length : ℤ)) (hsl : suf ≤ (s.length : ℤ))
    (hlen : s.length ≤ 1000000) :
    ((s.length : ℤ) = p + suf →
      Except.map Prod.fst (obscureString (.str s)
          { prefixLength := some (.intV p), suffixLength := some (.intV suf) }
          [] rng rt)
        = .ok s) ∧
    ((s.length : ℤ) < p + suf →
      obscureString (.str s)
          { prefixLength := some (.intV p), suffixLength := some (.intV suf) }
          [] rng rt
        = .error (("obscure-string: ").data
            ++ ("prefixLength + suffixLength cannot exceed string length").data)) := by
  constructor
  · intro hA
    by_cases hnil : s.length = 0
    · have hs : s = [] := List.length_eq_zero.mp hnil
      subst hs
      rfl
    · have hs : s ≠ [] := by simpa using hnil
      have hv := validateStr_ps_ok hlen hp0 hpl hs0 hsl (le_of_eq hA.symm)
      rw [show obscureString (.str s)
            { prefixLength := some (.intV p), suffixLength := some (.intV suf) }
            [] rng rt
          = obscureStr s
            { prefixLength := some (.intV p), suffixLength := some (.intV suf) }
            [] rng rt from rfl]
      rw [@obscureStr_miss s _ _ [] rng rt hs hv rfl]
      have hcore : obscureCompute s
          { prefixLength := some (.intV p), suffixLength := some (.intV suf) }
          ⟨'*' :: [], p.toNat, suf.toNat, none, none, none⟩ rng rt = s := by
        rw [show obscureCompute s
              { prefixLength := some (.intV p), suffixLength := some (.intV suf) }
              ⟨'*' :: [], p.toNat, suf.toNat, none, none, none⟩ rng rt
            = obscureCore s ⟨'*' :: [], p.toNat, suf.toNat, none, none, none⟩
            from rfl]
        unfold obscureCore
        simp only []
        rw [if_pos (show s.length ≤ p.toNat + suf.toNat by omega)]
      simp only [Except.map, hcore]
  · intro hB
    have hs : s ≠ [] := by
      intro h0
      subst h0
      simp only [List.length_nil, Nat.cast_zero] at hpl hsl hB
      omega
    have hv := @validateStr_combined_error s
      { prefixLength := some (.intV p), suffixLength := some (.intV suf) }
      p suf rfl rfl rfl hlen hp0 hpl hs0 hsl hB
    exact obscureStr_error [] rng rt hs hv

/-- Witness for C1: at input `"short"` with `prefixLength = suffixLength = 3`
(`6 > 5`) the call raises the combined-length error. -/
theorem C1_claim_witness :
    obscureString (.str ("short").data)
        { prefixLength := some (.intV 3), suffixLength := some (.intV 3) }
        [] rng0 rt0
      = .error (("obscure-string: ").data
          ++ ("prefixLength + suffixLength cannot exceed string length").data) :=
  (C1_claim ("short").data 3 3 rng0 rt0 (by decide) (by decide) (by decide)
    (by decide) (by decide)).2 (by decide)

/-- Claim C2 as stated is refuted: the cache key depends on the input only
through its length, so a prior call with a same-length, same-options input
poisons the cache — `obscureString("bbbb", {prefixLength: 1, suffixLength: 1})`
returns the cached `"a**a"` from an earlier `"aaaa"` call, while the same call
with `cache:false` returns `"b**b"`: disabling caching changed the value. -/
theorem C2_counterexample :
    (obscureStr ("aaaa").data
        { prefixLength := some (.intV 1), suffixLength := some (.intV 1) }
        [] rng0 rt0
      = .ok (("a**a").data, [(("4:*:1:1::").data, ("a**a").data)])) ∧
    (obscureStr ("bbbb").data
        { prefixLength := some (.intV 1), suffixLength := some (.intV 1) }
        [(("4:*:1:1::").data, ("a**a").data)] rng0 rt0
      = .ok (("a**a").data, [(("4:*:1:1::").data, ("a**a").data)])) ∧
    (obscureStr ("bbbb").data
        { prefixLength := some (.intV 1), suffixLength := some (.intV 1),
          cacheOn := false }
        [(("4:*:1:1::").data, ("a**a").data)] rng0 rt0
      = .ok (("b**b").data, [(("4:*:1:1::").data, ("a**a").data)])) ∧
    ("a**a").data ≠ ("b**b").data := by
  decide

/-- Claim C2 (amended): calling twice with identical input and options and
caching enabled returns bit-identical results (the second call also leaves
the cache unchanged); and provided no colliding same-key entry is already
cached, the value with caching enabled equals the value with `cache:false`
(against any cache). The collision proviso is necessary: the process-wide
cache is keyed by length, not content. -/
theorem C2_claim (v : JsVal) (o : Options) (c c₁ c' : Cache) (r : JStr)
    (rng rng' : ℕ → Fin 8) (rt : JStr → Char → Bool) :
    (o.cacheOn = true → obscureString v o c rng rt = .ok (r, c₁) →
      obscureString v o c₁ rng' rt = .ok (r, c₁)) ∧
    (∀ s so, v = .str s → s ≠ [] → validateStr s o = .ok so →
      getFromCache (getCacheKey s so) c = none →
      Except.map Prod.fst (obscureString v o c rng rt)
        = Except.map Prod.fst
            (obscureString v { o with cacheOn := false } c' rng rt)) := by
  constructor
  · intro hc h
    exact obscureString_repeat rng rng' rt hc h
  · intro s so hv hs hval hm
    subst hv
    exact obscureStr_cache_transparent rng rt hs hval hm

/-- Witness for C2: after `"aaaa"` with `{prefixLength: 1, suffixLength: 1}`
populates the cache, repeating the identical call returns the same `"a**a"`
and leaves the cache unchanged. -/
theorem C2_claim_witness :
    obscureString (.str ("aaaa").data)
        { prefixLength := some (.intV 1), suffixLength := some (.intV 1) }
        [(("4:*:1:1::").data, ("a**a").data)] rng0 rt0
      = .ok (("a**a").data, [(("4:*:1:1::").data, ("a**a").data)]) :=
  (C2_claim (.str ("aaaa").data)
      { prefixLength := some (.intV 1), suffixLength := some (.intV 1) }
      [] [(("4:*:1:1::").data, ("a**a").data)] [] (("a**a").data)
      rng0 rng0 rt0).1 rfl (by decide)

/-- Claim C4: the code diverges from the visibility invariant at
`suffixLength = 0` — `str.slice(-suffixLength)` is `str.slice(-0)`, i.e. the
whole string, so `obscureString("test", {prefixLength: 2, suffixLength: 0})`
evaluates to `"te**test"` (length 8) instead of the required `"te**"`: the
output's tail repeats the entire input rather than its last 0 characters. -/
theorem C4_evaluation :
    obscureStr ("test").data
        { prefixLength := some (.intV 2), suffixLength := some (.intV 0) }
        [] rng0 rt0
      = .ok (("te**test").data, [(("4:*:2:0::").data, ("te**test").data)]) ∧
    (("te**test").data).length ≠ (("test").data).length := by
  decide

/-- Claim C6 as stated is refuted: the validation error text can contain the
input as a substring — `obscureString("mask", {maskChar: ""})` raises
`"obscure-string: maskChar cannot be empty"`, and `"mask"` occurs inside the
message. -/
theorem C6_counterexample :
    obscureStr ("mask").data { maskChar := some (.strV []) } [] rng0 rt0
      = .error (("obscure-string: maskChar cannot be empty").data) ∧
    ("mask").data <:+: ("obscure-string: maskChar cannot be empty").data := by
  decide

/-- Claim C6 (amended): for every input and options bag that causes a
validation failure, the raised error is `"obscure-string: "` followed by one
of the thirteen fixed, input-independent validation messages, and replacing
the input by any other string of the same length raises the identical
error — no input characters flow into a validation error message, so any
overlap with the input, as in the counterexample, is coincidental.  (A
strategy-time throw such as the raw `SyntaxError` from `new RegExp` on an
invalid `preservePattern` is not a validation failure and is outside this
claim.) -/
theorem C6_claim (s t : JStr) (o : Options) (c : Cache) (rng : ℕ → Fin 8)
    (rt : JStr → Char → Bool) (e : JStr)
    (h : validateStr s o = .error e) (hs : s ≠ []) (ht : t ≠ [])
    (hlen : s.length = t.length) :
    e ∈ errorMessages ∧
    obscureStr s o c rng rt = .error (("obscure-string: ").data ++ e) ∧
    obscureStr t o c rng rt = .error (("obscure-string: ").data ++ e) := by
  refine ⟨validateStr_error_mem h, obscureStr_error c rng rt hs h, ?_⟩
  exact obscureStr_error c rng rt ht ((validateStr_content_free o hlen) ▸ h)

/-- Witness for C6: the validation failure at input `"mask"` with an empty
`maskChar` raises a message from the fixed list, and the same-length input
`"zzzz"` raises the identical message. -/
theorem C6_claim_witness :
    ("maskChar cannot be empty").data ∈ errorMessages ∧
    obscureStr ("mask").data { maskChar := some (.strV []) } [] rng0 rt0
      = .error (("obscure-string: ").data
          ++ ("maskChar cannot be empty").data) ∧
    obscureStr ("zzzz").data { maskChar := some (.strV []) } [] rng0 rt0
      = .error (("obscure-string: ").data
          ++ ("maskChar cannot be empty").data) :=
  C6_claim ("mask").data ("zzzz").data { maskChar := some (.strV []) } []
    rng0 rt0 (("maskChar cannot be empty").data)
    (by decide) (by decide) (by decide) (by decide)

/-- Claim C3 as stated is refuted on three quantified corners: with
`suffixLength = 0` the standard core returns `"te**" ++ "test"` (the
`slice(-0)` tail is the whole input, length 8 ≠ 4); with the
multi-character mask `"XX"` it returns `"t" ++ "XXXX" ++ "t"` (length 6 ≠ 4);
and the random strategy draws from a palette whose entries 2-7 are
multi-character mojibake strings, so drawing entry 2 (three characters) for
each of the two middle positions of `"abcd"` yields length 8 ≠ 4: length is
not preserved for all valid options, and not by the Random strategy at
all. -/
theorem C3_counterexample :
    (obscureCore ("test").data ⟨'*' :: [], 2, 0, none, none, none⟩).length
        ≠ (("test").data).length ∧
    (obscureCore ("test").data
        ⟨'X' :: 'X' :: [], 1, 1, none, none, none⟩).length
        ≠ (("test").data).length ∧
    (randomMaskApply ("abcd").data ⟨'*' :: [], 1, 1, none, none, none⟩
        (fun _ => (2 : Fin 8))).length ≠ (("abcd").data).length := by
  decide

/-- Claim C3 (amended): with a single-character mask and `suffixLength ≥ 1`
(and the sanitized bounds validation guarantees), the standard core on
inputs it does not pass through, the percentage strategy for any percentage
in range, the preserve-pattern strategy, and the spec-modelled full and
reverse strategies (for any non-empty mask) preserve length; the random
strategy preserves length only when every random draw lands on a
single-character palette entry (`*` or `#`) — the palette's other six
entries are multi-character strings, so random masking generally inflates
the output. -/
theorem C3_claim (s : JStr) (so : SanOptions) (rng : ℕ → Fin 8)
    (rt : JStr → Char → Bool) (q : ℚ) (mc : JStr) (p suf minMask : ℕ)
    (hmc1 : so.maskChar.length = 1) (hsuf : 1 ≤ so.suffixLength)
    (hps : so.prefixLength + so.suffixLength ≤ s.length)
    (hq0 : 0 ≤ q) (hq1 : q ≤ 100) (hlen : s.length ≤ 1000000)
    (hmc : mc ≠ []) :
    (so.prefixLength + so.suffixLength < s.length →
      (obscureCore s so).length = s.length) ∧
    (percentageMask s q so).length = s.length ∧
    ((∀ i, (getRandomMaskChar (rng i)).length = 1) →
      (randomMaskApply s so rng).length = s.length) ∧
    (preserveApply s so rt).length = s.length ∧
    (fullMaskStrategy s mc).length = s.length ∧
    (reverseMaskStrategy s mc p suf minMask).length = s.length := by
  refine ⟨fun hlt => obscureCore_length hmc1 hsuf hlt, ?_, ?_, ?_, ?_, ?_⟩
  · exact percentageMask_length hmc1 hq0 hq1 hlen
  · exact fun hdraw => randomMaskApply_length rng hsuf hps hdraw
  · exact preserveApply_length rt hmc1 hsuf hps
  · exact fullMaskStrategy_length hmc
  · exact reverseMaskStrategy_length hmc p suf minMask

/-- Witness for C3: at input `"abcd"` with mask `'*'`, `prefixLength =
suffixLength = 1` and percentage 50, all six strategies produce length-4
output. -/
theorem C3_claim_witness :
    (obscureCore ("abcd").data ⟨'*' :: [], 1, 1, none, none, none⟩).length
        = (("abcd").data).length ∧
    (percentageMask ("abcd").data 50
        ⟨'*' :: [], 1, 1, none, none, none⟩).length = (("abcd").data).length ∧
    (randomMaskApply ("abcd").data
        ⟨'*' :: [], 1, 1, none, none, none⟩ rng0).length
        = (("abcd").data).length ∧
    (preserveApply ("abcd").data
        ⟨'*' :: [], 1, 1, none, none, none⟩ rt0).length
        = (("abcd").data).length ∧
    (fullMaskStrategy ("abcd").data ('*' :: [])).length
        = (("abcd").data).length ∧
    (reverseMaskStrategy ("abcd").data ('*' :: []) 1 1 0).length
        = (("abcd").data).length :=
  have h := C3_claim ("abcd").data ⟨'*' :: [], 1, 1, none, none, none⟩
    rng0 rt0 50 ('*' :: []) 1 1 0 (by decide) (by decide) (by decide)
    (by decide) (by decide) (by decide) (by decide)
  ⟨h.1 (by decide), h.2.1, h.2.2.1 (fun _ => rfl), h.2.2.2⟩

/-- Claim C5 as stated is refuted on the mask-count formula: the code
computes `Math.floor(len * (p / 100))` in binary64 floating point, which
differs from the exact `floor(len * p / 100)` — at `len = 50`, `p = 58` the
double rounds `50 * fl(58/100)` down to just below 29, so the code masks 28
characters where the claimed exact formula gives 29; the 50-character input
keeps 11 + 11 visible characters around a 28-character mask run. -/
theorem C5_counterexample :
    jsMaskCount 50 58 = 28 ∧ ((50 * 58 : ℤ) / 100) = 29 ∧
    percentageMask (List.replicate 50 'x') 58
        ⟨'*' :: [], 3, 3, some 58, none, none⟩
      = List.replicate 11 'x' ++ List.replicate 28 '*'
          ++ List.replicate 11 'x' := by
  decide

/-- Claim C5 (amended): with a percentage option present (and no pattern),
the strategy output is input-prefix, mask run, input-tail centered around
`maskCount = jsMaskCount` — the binary64 evaluation of
`Math.floor(len * (p/100))`, not the exact rational floor; the mask count
never exceeds the validated input's length, a zero mask count returns the
input unchanged, and a full mask count masks the whole string. -/
theorem C5_claim (s : JStr) (o : Options) (so : SanOptions) (q : ℚ)
    (rng : ℕ → Fin 8) (rt : JStr → Char → Bool)
    (hpat : o.pattern = none) (hperc : o.percentage = some (.numV q))
    (hv : validateStr s o = .ok so) :
    obscureCompute s o so rng rt =
      jsTake s ((s.length - jsMaskCount s.length q) / 2)
        ++ jsRepeat so.maskChar (jsMaskCount s.length q)
        ++ jsDrop s ((s.length - jsMaskCount s.length q) / 2
            + jsMaskCount s.length q) ∧
    jsMaskCount s.length q ≤ s.length ∧
    (jsMaskCount s.length q = 0 → obscureCompute s o so rng rt = s) ∧
    (jsMaskCount s.length q = s.length →
      obscureCompute s o so rng rt = jsRepeat so.maskChar s.length) := by
  have hq := validateStr_perc_inv hv hperc
  have hlen := (validateStr_ok_inv hv).2.2.2.2.2
  have hcp := @obscureCompute_percentage s o so q rng rt hpat hperc
  refine ⟨?_, jsMaskCount_le hq.2.1 hq.2.2 hlen, ?_, ?_⟩
  · rw [hcp]
    rfl
  · intro h0
    rw [hcp]
    exact percentageMask_eq_self_of_zero so h0
  · intro hfull
    rw [hcp]
    exact percentageMask_full so hfull

/-- Witness for C5: `obscureString("1234567890", {percentage: 50})` computes
`"12*****890"` — a 5-character centered mask run (here the double arithmetic
and the exact floor agree), with the mask count bounded by the length. -/
theorem C5_claim_witness :
    obscureCompute ("1234567890").data { percentage := some (.numV 50) }
        ⟨'*' :: [], 3, 3, some 50, none, none⟩ rng0 rt0
      = ("12*****890").data ∧
    jsMaskCount (("1234567890").data).length 50 ≤ (("1234567890").data).length :=
  have h := C5_claim ("1234567890").data { percentage := some (.numV 50) }
    ⟨'*' :: [], 3, 3, some 50, none, none⟩ 50 rng0 rt0 rfl rfl (by decide)
  ⟨h.1.trans (by decide), h.2.1⟩

/-- Claim C7 (modelled from the spec: the `creditCard` preset is absent from
src, so the preset is formalised from spec section 4.2's words): the preset
strips non-digits; with fewer than 8 digits it returns the input unchanged,
otherwise it returns a mask run followed by the last 4 digits, with output
length equal to the digit count. -/
theorem C7_claim (s : JStr) (ch : Char) :
    ((s.filter Char.isDigit).length < 8 → presetCreditCard s (ch :: []) = s) ∧
    (8 ≤ (s.filter Char.isDigit).length →
      presetCreditCard s (ch :: []) =
        List.replicate ((s.filter Char.isDigit).length - 4) ch
          ++ (s.filter Char.isDigit).drop ((s.filter Char.isDigit).length - 4) ∧
      (presetCreditCard s (ch :: [])).length
          = (s.filter Char.isDigit).length) := by
  constructor
  · intro hlt
    unfold presetCreditCard
    simp only []
    rw [if_pos hlt]
  · intro hge
    exact presetCreditCard_masked hge

/-- Witness for C7: the spec's concrete example — the 16-digit card number
`"4111111111111111"` masks to `"************1111"`. -/
theorem C7_claim_witness :
    presetCreditCard ("4111111111111111").data ('*' :: [])
      = ("************1111").data :=
  (((C7_claim ("4111111111111111").data '*').2 (by decide)).1).trans (by decide)

/-- Claim C8 as stated is refuted: the combined `prefixLength + suffixLength`
check runs for every call, before any strategy is selected — with the default
`prefixLength = suffixLength = 3`, `obscureString` on the 4-character `"abcd"`
with `{percentage: 100}` throws the combined-length error instead of
succeeding. -/
theorem C8_counterexample :
    obscureStr ("abcd").data { percentage := some (.numV 100) } [] rng0 rt0
      = .error (("obscure-string: ").data
          ++ ("prefixLength + suffixLength cannot exceed string length").data) := by
  decide

/-- Claim C8 (amended): validation is strategy-independent — whenever the
explicit `prefixLength` and `suffixLength` are individually in range but
their sum exceeds the input length, the call fails with the combined-length
error for every choice of percentage, preservePattern, randomMask and
pattern options; a percentage call only succeeds by making the defaults fit,
e.g. `"abcd"` with `{percentage: 100, prefixLength: 0, suffixLength: 0}`
returns the fully masked `"****"`. -/
theorem C8_claim (s : JStr) (p suf : ℤ) (pc : Option PercVal)
    (pp : Option PPVal) (rm : Option RMVal) (pat : Option JStr) (c : Cache)
    (rng : ℕ → Fin 8) (rt : JStr → Char → Bool)
    (hs : s ≠ []) (hlen : s.length ≤ 1000000) (hp0 : 0 ≤ p)
    (hpl : p ≤ (s.length : ℤ)) (hs0 : 0 ≤ suf) (hsl : suf ≤ (s.length : ℤ))
    (hover : (s.length : ℤ) < p + suf) :
    obscureStr s
        { prefixLength := some (.intV p), suffixLength := some (.intV suf),
          percentage := pc, preservePattern := pp, randomMask := rm,
          pattern := pat } c rng rt
      = .error (("obscure-string: ").data
          ++ ("prefixLength + suffixLength cannot exceed string length").data) ∧
    obscureStr ("abcd").data
        { prefixLength := some (.intV 0), suffixLength := some (.intV 0),
          percentage := some (.numV 100) } [] rng0 rt0
      = .ok (("****").data, [(("4:*:0:0:100:").data, ("****").data)]) := by
  constructor
  · have hv := validateStr_combined_error
      (o := { prefixLength := some (.intV p), suffixLength := some (.intV suf),
              percentage := pc, preservePattern := pp, randomMask := rm,
              pattern := pat })
      rfl rfl rfl hlen hp0 hpl hs0 hsl hover
    exact obscureStr_error c rng rt hs hv
  · decide

/-- Witness for C8: `"abcd"` with `{percentage: 100}` and the defaults made
explicit (`prefixLength = suffixLength = 3`) fails with the combined-length
error even though the percentage strategy is selected. -/
theorem C8_claim_witness :
    obscureStr ("abcd").data
        { prefixLength := some (.intV 3), suffixLength := some (.intV 3),
          percentage := some (.numV 100), preservePattern := none,
          randomMask := none, pattern := none } [] rng0 rt0
      = .error (("obscure-string: ").data
          ++ ("prefixLength + suffixLength cannot exceed string length").data) :=
  (C8_claim ("abcd").data 3 3 (some (.numV 100)) none none none [] rng0 rt0
    (by decide) (by decide) (by decide) (by decide) (by decide) (by decide)
    (by decide)).1

/-- Claim C9: `obscureStringBatch` raises the type error exactly on a
non-array argument; on every array — the empty array included — it succeeds
with an output of the same length, and every element whose processing
fails — a non-string element or one whose validation errors — contributes
the empty string at its position instead of aborting the batch. -/
theorem C9_claim (o : Options) (c : Cache) (rng2 : ℕ → ℕ → Fin 8)
    (rt : JStr → Char → Bool) (xs : List JsVal) :
    obscureStringBatch .notArray o c rng2 rt
      = .error ("obscure-string: Input must be an array of strings").data ∧
    obscureStringBatch (.arr xs) o c rng2 rt
      = .ok (batchGo o rng2 rt xs c 0) ∧
    (batchGo o rng2 rt xs c 0).1.length = xs.length ∧
    ∀ j, ∀ hj : j < xs.length,
      (xs.get ⟨j, hj⟩ = .other ∨
        ∃ e, validateInput (xs.get ⟨j, hj⟩) o = .error e) →
      (batchGo o rng2 rt xs c 0).1.getD j [] = [] := by
  refine ⟨rfl, rfl, batchGo_length o rng2 rt xs c 0, ?_⟩
  intro j hj hfail
  exact batchGo_fail o rng2 rt xs c 0 j hj hfail

/-- Witness for C9: the empty batch succeeds with length 0, and the batch
`[null, "ok"]` (a non-string first element) succeeds, keeps its length 2,
and yields the empty string at position 0. -/
theorem C9_claim_witness :
    obscureStringBatch .notArray ({} : Options) [] rng2z rt0
      = .error ("obscure-string: Input must be an array of strings").data ∧
    (batchGo ({} : Options) rng2z rt0 [] [] 0).1.length = 0 ∧
    obscureStringBatch (.arr [JsVal.other, .str ("ok").data]) ({} : Options)
        [] rng2z rt0
      = .ok (batchGo ({} : Options) rng2z rt0 [JsVal.other, .str ("ok").data] [] 0) ∧
    (batchGo ({} : Options) rng2z rt0 [JsVal.other, .str ("ok").data] [] 0).1.length
      = 2 ∧
    (batchGo ({} : Options) rng2z rt0 [JsVal.other, .str ("ok").data] [] 0).1.getD 0 []
      = [] :=
  have h0 := C9_claim ({} : Options) [] rng2z rt0 []
  have h2 := C9_claim ({} : Options) [] rng2z rt0 [JsVal.other, .str ("ok").data]
  ⟨h0.1, h0.2.2.1, h2.2.1, h2.2.2.1, h2.2.2.2 0 (by decide) (Or.inl rfl)⟩

/-- Claim C10: the cache key is built from the input's length, maskChar,
prefixLength, suffixLength, percentage and preservePattern only — so with
caching enabled, after a successful call on `s`, any later call whose input
has the same length and whose sanitized key fields agree returns the first
call's cached output, even with a different input string, a different random
source and regex oracle, and different pattern/randomMask options. -/
theorem C10_claim (s t : JStr) (o o' : Options) (so so' : SanOptions)
    (c c₁ : Cache) (r : JStr) (rng rng' : ℕ → Fin 8)
    (rt rt' : JStr → Char → Bool)
    (hs : s ≠ []) (ht : t ≠ [])
    (hv : validateStr s o = .ok so) (hv' : validateStr t o' = .ok so')
    (hc : o.cacheOn = true) (hc' : o'.cacheOn = true)
    (hlen : s.length = t.length)
    (hmc : so'.maskChar = so.maskChar)
    (hp : so'.prefixLength = so.prefixLength)
    (hsuf : so'.suffixLength = so.suffixLength)
    (hperc : percKeyPart so'.percentage = percKeyPart so.percentage)
    (hpp : ppKeyPart so'.preservePattern = ppKeyPart so.preservePattern)
    (h : obscureStr s o c rng rt = .ok (r, c₁)) :
    obscureStr t o' c₁ rng' rt' = .ok (r, c₁) := by
  have hlook : getFromCache (getCacheKey s so) c₁ = some r :=
    obscureStr_ok_lookup hs hv hc h
  have hkey : getCacheKey t so' = getCacheKey s so :=
    getCacheKey_fields hlen hmc hp hsuf hperc hpp
  exact obscureStr_hit rng' rt' ht hv' hc' (hkey ▸ hlook)

/-- Witness for C10: a randomMask call on `"abcd"` caches `"a##d"` under the
key `"4:*:1:1::"`; the later plain call on the different same-length input
`"zzzz"` with `{prefixLength: 1, suffixLength: 1}` and no randomMask returns
the cached `"a##d"`. -/
theorem C10_claim_witness :
    obscureStr ("zzzz").data
        { prefixLength := some (.intV 1), suffixLength := some (.intV 1) }
        [(("4:*:1:1::").data, ("a##d").data)] rng0 rt0
      = .ok (("a##d").data, [(("4:*:1:1::").data, ("a##d").data)]) :=
  C10_claim ("abcd").data ("zzzz").data
    { prefixLength := some (.intV 1), suffixLength := some (.intV 1),
      randomMask := some (.boolV true) }
    { prefixLength := some (.intV 1), suffixLength := some (.intV 1) }
    ⟨'*' :: [], 1, 1, none, none, some true⟩
    ⟨'*' :: [], 1, 1, none, none, none⟩
    [] [(("4:*:1:1::").data, ("a##d").data)] (("a##d").data)
    rng1 rng0 rt0 rt0
    (by decide) (by decide) (by decide) (by decide) rfl rfl (by decide)
    rfl rfl rfl rfl rfl (by decide)
